import Mathlib

/-!
Shallow embedding of the fleet-management core (traffic manager, navigation
graph with BFS shortest paths, robot kinematics, fleet orchestrator) together
with proofs of the specified properties.

Python dicts are modelled as insertion-ordered association lists: `dictFind?`
returns the value bound to a key, `dictInsert` updates an existing binding in
place or appends a fresh one, `dictErase` removes the bindings of a key.
-/

namespace FleetSim

/-- Lookup in an association list (Python `d[k]` / `k in d`). -/
def dictFind? {κ ν : Type} [DecidableEq κ] (k : κ) : List (κ × ν) → Option ν
  | [] => none
  | (k', v) :: rest => if k' = k then some v else dictFind? k rest

/-- Assignment `d[k] = v`: update the binding in place, or append a new one. -/
def dictInsert {κ ν : Type} [DecidableEq κ] (k : κ) (v : ν) : List (κ × ν) → List (κ × ν)
  | [] => [(k, v)]
  | (k', v') :: rest => if k' = k then (k, v) :: rest else (k', v') :: dictInsert k v rest

/-- Deletion `del d[k]`: remove the bindings of `k`. -/
def dictErase {κ ν : Type} [DecidableEq κ] (k : κ) (l : List (κ × ν)) : List (κ × ν) :=
  l.filter (fun p => decide (p.1 ≠ k))

/-! ## Traffic manager (`src/controllers/traffic_manager.py`) -/

/-- The exclusive-ownership ledger: lane and vertex occupancy dicts. -/
structure TrafficManager where
  lane_occupancy : List ((Nat × Nat) × Nat)
  vertex_occupancy : List (Nat × Nat)

/-- `_normalize_lane`: canonical (min, max) key for an undirected lane. -/
def TrafficManager.normalize_lane (from_vertex to_vertex : Nat) : Nat × Nat :=
  (min from_vertex to_vertex, max from_vertex to_vertex)

/-- `request_lane`: grant unless the canonical lane is held by another robot. -/
def TrafficManager.request_lane (tm : TrafficManager) (robot_id from_vertex to_vertex : Nat) :
    Bool × TrafficManager :=
  match dictFind? (TrafficManager.normalize_lane from_vertex to_vertex) tm.lane_occupancy with
  | some holder =>
    if holder ≠ robot_id then (false, tm)
    else
      (true,
       { tm with lane_occupancy := dictInsert (TrafficManager.normalize_lane from_vertex to_vertex) robot_id tm.lane_occupancy })
  | none =>
    (true,
     { tm with lane_occupancy := dictInsert (TrafficManager.normalize_lane from_vertex to_vertex) robot_id tm.lane_occupancy })

/-- `request_vertex`: grant unless the vertex is held by another robot. -/
def TrafficManager.request_vertex (tm : TrafficManager) (robot_id vertex_id : Nat) :
    Bool × TrafficManager :=
  match dictFind? vertex_id tm.vertex_occupancy with
  | some holder =>
    if holder ≠ robot_id then (false, tm)
    else (true, { tm with vertex_occupancy := dictInsert vertex_id robot_id tm.vertex_occupancy })
  | none => (true, { tm with vertex_occupancy := dictInsert vertex_id robot_id tm.vertex_occupancy })

/-- `release_lane`: delete the canonical lane entry, only if held by `robot_id`. -/
def TrafficManager.release_lane (tm : TrafficManager) (robot_id from_vertex to_vertex : Nat) :
    TrafficManager :=
  if dictFind? (TrafficManager.normalize_lane from_vertex to_vertex) tm.lane_occupancy =
      some robot_id then
    { tm with lane_occupancy := dictErase (TrafficManager.normalize_lane from_vertex to_vertex) tm.lane_occupancy }
  else tm

/-- `release_vertex`: delete the vertex entry, only if held by `robot_id`. -/
def TrafficManager.release_vertex (tm : TrafficManager) (robot_id vertex_id : Nat) :
    TrafficManager :=
  if dictFind? vertex_id tm.vertex_occupancy = some robot_id then
    { tm with vertex_occupancy := dictErase vertex_id tm.vertex_occupancy }
  else tm

/-- `get_occupied_lanes`: the keys of the lane dict. -/
def TrafficManager.get_occupied_lanes (tm : TrafficManager) : List (Nat × Nat) :=
  tm.lane_occupancy.map Prod.fst

/-- `get_occupied_vertices`: the keys of the vertex dict. -/
def TrafficManager.get_occupied_vertices (tm : TrafficManager) : List Nat :=
  tm.vertex_occupancy.map Prod.fst

/-! ## Navigation graph (`src/models/nav_graph.py`)

A vertex is its 2-D position (attribute bag dropped: no claim touches names or
charger flags); a lane is `(from, to, speed_limit)` with `speed_limit = 0`
standing for an absent or unlimited limit, exactly the default of
`props.get('speed_limit', 0)`. -/

structure NavGraph where
  vertices : List (ℝ × ℝ)
  lanes : List (Nat × Nat × ℝ)

/-- One row of `_build_adjacency_list`: for each lane, `lane[0]` gets `lane[1]`
appended and then `lane[1]` gets `lane[0]` appended, in lane order. -/
def adjRow (lanes : List (Nat × Nat × ℝ)) (i : Nat) : List Nat :=
  lanes.flatMap (fun l =>
    (if l.1 = i then [l.2.1] else []) ++ (if l.2.1 = i then [l.1] else []))

/-- `adjacency_list`: rows exist for indices `0 .. len(vertices) - 1`. -/
def NavGraph.adjacency_list (g : NavGraph) (i : Nat) : List Nat :=
  if i < g.vertices.length then adjRow g.lanes i else []

/-- All lane endpoints, the finite universe BFS can ever discover. -/
def NavGraph.laneVerts (g : NavGraph) : List Nat :=
  g.lanes.flatMap (fun l => [l.1, l.2.1])

/-- `get_vertex_position`. -/
def NavGraph.get_vertex_position (g : NavGraph) (vertex_id : Nat) : ℝ × ℝ :=
  g.vertices.getD vertex_id (0, 0)

/-- `get_lane_speed_limit`: the property entry of the last lane matching the
pair in either direction (later lanes overwrite earlier dict entries), else 0. -/
def NavGraph.get_lane_speed_limit (g : NavGraph) (from_vertex to_vertex : Nat) : ℝ :=
  match g.lanes.reverse.find? (fun l =>
      decide ((l.1 = from_vertex ∧ l.2.1 = to_vertex) ∨ (l.1 = to_vertex ∧ l.2.1 = from_vertex))) with
  | some l => l.2.2
  | none => 0

/-- Number of lane endpoints not yet in `visited`; `2 * unvisCount + |queue|`
strictly decreases at every iteration of the BFS loop, which bounds the number
of iterations the Python `while queue` loop can make. -/
def unvisCount (g : NavGraph) (visited : List (Nat × Option Nat)) : Nat :=
  ((g.laneVerts.dedup).filter (fun v => (dictFind? v visited).isNone)).length

/-- Path reconstruction: follow `visited` parent pointers from `v` back to the
start (whose parent is `none`), accumulating the path in forward order.  The
fuel `visited.length` is enough for every parent map BFS builds. -/
def backtrack (visited : List (Nat × Option Nat)) : Nat → Nat → List Nat → List Nat
  | 0, _, acc => acc
  | fuel + 1, v, acc =>
    match dictFind? v visited with
    | some (some p) => backtrack visited fuel p (v :: acc)
    | _ => v :: acc

/-- The inner `for neighbor in adjacency_list[current]` loop of
`find_shortest_path`: skip occupied / self / already-visited neighbors, record
the parent and enqueue fresh ones, and return the reconstructed path as soon as
the target is discovered. -/
def processNeighbors (occ : List Nat) (tgt current : Nat) :
    List Nat → List (Nat × Option Nat) → List Nat →
    List (Nat × Option Nat) × List Nat × Option (List Nat)
  | [], visited, queue => (visited, queue, none)
  | n :: ns, visited, queue =>
    if n ∈ occ ∨ n = current then processNeighbors occ tgt current ns visited queue
    else if (dictFind? n visited).isSome then processNeighbors occ tgt current ns visited queue
    else
      let visited' := visited ++ [(n, some current)]
      let queue' := queue ++ [n]
      if n = tgt then (visited', queue', some (backtrack visited' visited'.length tgt []))
      else processNeighbors occ tgt current ns visited' queue'

/-- The outer `while queue` loop of `find_shortest_path`.  The fuel is a
provable upper bound on the number of iterations (each iteration pops the
queue, and every enqueue is paired with a fresh `visited` entry drawn from the
lane endpoints), so with the fuel chosen in `find_shortest_path` the loop
behaves exactly like the unbounded Python loop. -/
def bfsLoop (g : NavGraph) (occ : List Nat) (tgt : Nat) :
    Nat → List (Nat × Option Nat) → List Nat → Option (List Nat)
  | 0, _, _ => none
  | _ + 1, _, [] => none
  | fuel + 1, visited, current :: rest =>
    match processNeighbors occ tgt current (g.adjacency_list current) visited rest with
    | (_, _, some path) => some path
    | (visited', queue', none) => bfsLoop g occ tgt fuel visited' queue'

/-- `find_shortest_path`: BFS avoiding `occupied_vertices`, with the
`start == end` short-circuit returning `[start]` before any occupancy check. -/
def NavGraph.find_shortest_path (g : NavGraph) (start tgt : Nat)
    (occupied_vertices : List Nat) : Option (List Nat) :=
  if start = tgt then some [start]
  else bfsLoop g occupied_vertices tgt (2 * unvisCount g [(start, none)] + 1)
    [(start, none)] [start]

/-! ## Robot (`src/models/robot.py`)

Positions, speeds, progress fractions and elapsed times are idealized as real
numbers (the Python source uses floats).  The color and logger attributes are
dropped: no specified property mentions them. -/

inductive RobotStatus
  | IDLE | MOVING | WAITING | CHARGING | TASK_COMPLETE
deriving DecidableEq

structure Robot where
  id : Nat
  current_vertex : Nat
  previous_vertex : Option Nat
  destination_vertex : Option Nat
  path : List Nat
  status : RobotStatus
  speed : ℝ
  progress : ℝ

/-- `Robot.__init__`: IDLE at the start vertex, speed 1.0, progress 0. -/
def Robot.new (robot_id start_vertex : Nat) : Robot :=
  { id := robot_id, current_vertex := start_vertex, previous_vertex := none,
    destination_vertex := none, path := [], status := .IDLE, speed := 1, progress := 0 }

/-- `Robot.assign_task`: store destination and path, go MOVING, reset progress. -/
def Robot.assign_task (r : Robot) (destination : Nat) (path : List Nat) : Robot :=
  { r with destination_vertex := some destination, path := path,
           status := .MOVING, progress := 0 }

/-- `_distance_to_next`: Euclidean distance from the current vertex to the
path head (0 for an empty path). -/
noncomputable def Robot.distance_to_next (g : NavGraph) (r : Robot) : ℝ :=
  match r.path with
  | [] => 0
  | n :: _ =>
    Real.sqrt (((g.get_vertex_position n).1 - (g.get_vertex_position r.current_vertex).1) ^ 2 +
      ((g.get_vertex_position n).2 - (g.get_vertex_position r.current_vertex).2) ^ 2)

/-- `update_position`: no-op unless MOVING with a path; otherwise either snap
to the next vertex (covered distance at the speed-limit-capped speed reaches
the remaining distance) or accumulate fractional progress.  The Python method
also returns a Bool, which no caller uses. -/
noncomputable def Robot.update_position (g : NavGraph) (delta_time : ℝ) (r : Robot) : Robot :=
  if r.status = .MOVING then
    match r.path with
    | [] => r
    | next_vertex :: _ =>
      let speed_limit := g.get_lane_speed_limit r.current_vertex next_vertex
      let effective_speed := if speed_limit = 0 then r.speed else min r.speed speed_limit
      let distance := delta_time * effective_speed
      let remaining_distance := (1 - r.progress) * r.distance_to_next g
      if remaining_distance ≤ distance then
        { r with previous_vertex := some r.current_vertex,
                 current_vertex := next_vertex, progress := 0 }
      else
        { r with progress := r.progress + distance / r.distance_to_next g }
  else r

/-! ## Fleet manager (`src/controllers/fleet_manager.py`)

`robots` is the insertion-ordered dict from robot id to robot state; the
navigation graph is carried as a read-only field. -/

structure FleetManager where
  nav_graph : NavGraph
  robots : List (Nat × Robot)
  next_robot_id : Nat
  traffic_manager : TrafficManager

/-- `spawn_robot`: range-check the vertex, acquire its hold for the fresh id,
then create the IDLE robot and bump the id counter. -/
def FleetManager.spawn_robot (fm : FleetManager) (vertex_id : Nat) :
    Option Robot × FleetManager :=
  if fm.nav_graph.vertices.length ≤ vertex_id then (none, fm)
  else
    match fm.traffic_manager.request_vertex fm.next_robot_id vertex_id with
    | (false, tm') => (none, { fm with traffic_manager := tm' })
    | (true, tm') =>
      let robot := Robot.new fm.next_robot_id vertex_id
      (some robot,
       { fm with robots := dictInsert fm.next_robot_id robot fm.robots,
                 next_robot_id := fm.next_robot_id + 1,
                 traffic_manager := tm' })

/-- `assign_task`: reject unknown ids and CHARGING robots, path against the
current occupancy snapshot, release the origin hold when actual movement is
required, then hand destination and path to the robot. -/
def FleetManager.assign_task (fm : FleetManager) (robot_id destination_vertex : Nat) :
    Bool × FleetManager :=
  match dictFind? robot_id fm.robots with
  | none => (false, fm)
  | some robot =>
    if robot.status = .CHARGING then (false, fm)
    else
      match fm.nav_graph.find_shortest_path robot.current_vertex destination_vertex
          fm.traffic_manager.get_occupied_vertices with
      | none => (false, fm)
      | some path =>
        if path = [] then (false, fm)
        else
          let tm' := if 1 < path.length then
              fm.traffic_manager.release_vertex robot.id robot.current_vertex
            else fm.traffic_manager
          (true, { fm with traffic_manager := tm',
                           robots := dictInsert robot_id
                             (robot.assign_task destination_vertex path) fm.robots })

/-- `_can_move_to`: staying in place is free; otherwise acquire the vertex
hold first, then the lane hold.  A vertex hold granted before a lane denial is
kept (returned in the threaded ledger). -/
def FleetManager.can_move_to (fm : FleetManager) (robot : Robot) (next_vertex : Nat) :
    Bool × TrafficManager :=
  if next_vertex = robot.current_vertex then (true, fm.traffic_manager)
  else
    match fm.traffic_manager.request_vertex robot.id next_vertex with
    | (false, tm₁) => (false, tm₁)
    | (true, tm₁) => tm₁.request_lane robot.id robot.current_vertex next_vertex

/-- `_handle_vertex_reached`: release the previous lane and vertex, pop the
consumed path head, and on an emptied path go TASK_COMPLETE and release the
final vertex. -/
def FleetManager.handle_vertex_reached (fm : FleetManager) (robot : Robot) : FleetManager :=
  let tm₁ :=
    match robot.previous_vertex with
    | some prev =>
      (fm.traffic_manager.release_lane robot.id prev robot.current_vertex).release_vertex
        robot.id prev
    | none => fm.traffic_manager
  let robot₁ := { robot with path := robot.path.tail }
  if robot₁.path = [] then
    { fm with traffic_manager := tm₁.release_vertex robot.id robot.current_vertex,
              robots := dictInsert robot.id { robot₁ with status := .TASK_COMPLETE } fm.robots }
  else
    { fm with traffic_manager := tm₁, robots := dictInsert robot.id robot₁ fm.robots }

/-- `_process_movement`: attempt the resource acquisition, advance the robot
on success (handling arrival), park it WAITING on denial — keeping whatever
the acquisition attempt already wrote into the ledger. -/
noncomputable def FleetManager.process_movement (fm : FleetManager) (delta_time : ℝ)
    (robot : Robot) : FleetManager :=
  match robot.path with
  | [] => fm
  | next_vertex :: _ =>
    match fm.can_move_to robot next_vertex with
    | (true, tm') =>
      let robot' := robot.update_position fm.nav_graph delta_time
      let fm' := { fm with traffic_manager := tm',
                           robots := dictInsert robot.id robot' fm.robots }
      if robot'.current_vertex = next_vertex then fm'.handle_vertex_reached robot' else fm'
    | (false, tm') =>
      { fm with traffic_manager := tm',
                robots := dictInsert robot.id { robot with status := .WAITING } fm.robots }

/-- `_check_waiting_robot`: re-path against a fresh occupancy snapshot and
resume MOVING when a path is found.  A robot whose `destination_vertex` is
still `None` can never match a BFS target, so it is left unchanged. -/
def FleetManager.check_waiting_robot (fm : FleetManager) (robot : Robot) : FleetManager :=
  match robot.destination_vertex with
  | none => fm
  | some dest =>
    match fm.nav_graph.find_shortest_path robot.current_vertex dest
        fm.traffic_manager.get_occupied_vertices with
    | none => fm
    | some new_path =>
      if new_path = [] then fm
      else
        let robot' := { robot with path := new_path, status := RobotStatus.MOVING }
        { fm with robots := dictInsert robot.id robot' fm.robots }

/-- One movement-pass step of `update_robots`: look the robot up (the Python
loop holds an alias to the live object) and process it when MOVING with a
non-empty path. -/
noncomputable def FleetManager.movement_step (fm : FleetManager) (delta_time : ℝ)
    (rid : Nat) : FleetManager :=
  match dictFind? rid fm.robots with
  | none => fm
  | some robot =>
    if robot.status = .MOVING ∧ robot.path ≠ [] then fm.process_movement delta_time robot
    else fm

/-- One recovery-pass step of `update_robots`: retry a WAITING robot with a
non-empty path. -/
def FleetManager.waiting_step (fm : FleetManager) (rid : Nat) : FleetManager :=
  match dictFind? rid fm.robots with
  | none => fm
  | some robot =>
    if robot.status = .WAITING ∧ robot.path ≠ [] then fm.check_waiting_robot robot
    else fm

/-- The movement pass: every robot, in insertion order. -/
noncomputable def FleetManager.movement_pass (fm : FleetManager) (delta_time : ℝ) :
    FleetManager :=
  (fm.robots.map Prod.fst).foldl (fun st rid => st.movement_step delta_time rid) fm

/-- `update_robots`: movement pass, then recovery pass, in one tick. -/
noncomputable def FleetManager.update_robots (fm : FleetManager) (delta_time : ℝ) :
    FleetManager :=
  let fm₁ := fm.movement_pass delta_time
  (fm₁.robots.map Prod.fst).foldl (fun st rid => st.waiting_step rid) fm₁

/-! ## Specification-side definitions -/

/-- Walks over the adjacency structure: `AReach g occ a v n` holds when there
is a walk of `n` edges from `a` to `v` all of whose vertices after the first
avoid `occ`.  With `occ = []` this is plain graph reachability, and the least
such `n` is the unweighted graph distance. -/
inductive AReach (g : NavGraph) (occ : List Nat) (a : Nat) : Nat → Nat → Prop
  | refl : AReach g occ a a 0
  | step {u v n} : AReach g occ a u n → v ∈ g.adjacency_list u → v ∉ occ →
      AReach g occ a v (n + 1)

/-- Ledger states reachable from the empty ledger by any sequence of
request/release calls. -/
inductive TMReach : TrafficManager → Prop
  | init : TMReach ⟨[], []⟩
  | request_lane (tm : TrafficManager) (rid a b : Nat) :
      TMReach tm → TMReach (tm.request_lane rid a b).2
  | request_vertex (tm : TrafficManager) (rid v : Nat) :
      TMReach tm → TMReach (tm.request_vertex rid v).2
  | release_lane (tm : TrafficManager) (rid a b : Nat) :
      TMReach tm → TMReach (tm.release_lane rid a b)
  | release_vertex (tm : TrafficManager) (rid v : Nat) :
      TMReach tm → TMReach (tm.release_vertex rid v)

/-- The empty ledger. -/
def tmEmpty : TrafficManager := ⟨[], []⟩

/-- A list of vertices is a valid BFS path when each consecutive pair is an
adjacency edge into an unoccupied vertex distinct from its predecessor
(exactly the neighbors `find_shortest_path` is willing to cross). -/
def PathOK (g : NavGraph) (occ : List Nat) (p : List Nat) : Prop :=
  List.Chain' (fun u v => v ∈ g.adjacency_list u ∧ v ∉ occ ∧ v ≠ u) p

/-- The loop invariant of `find_shortest_path`'s BFS: `visited` is a
duplicate-free parent map rooted at `start` whose recorded levels `lvl` are
exactly the `occ`-avoiding graph distances, the queue is a two-level frontier
of visited vertices, and every visited vertex outside the queue is fully
expanded. -/
structure BFSInv (g : NavGraph) (occ : List Nat) (start : Nat) (lvl : Nat → Nat)
    (visited : List (Nat × Option Nat)) (queue : List Nat) : Prop where
  nd : (visited.map Prod.fst).Nodup
  start_mem : dictFind? start visited = some none
  lvl_start : lvl start = 0
  none_start : ∀ v p, dictFind? v visited = some p → p = none → v = start
  parent : ∀ v p, dictFind? v visited = some (some p) →
    (dictFind? p visited).isSome = true ∧ lvl v = lvl p + 1 ∧
    v ∈ g.adjacency_list p ∧ v ∉ occ ∧ v ≠ p
  sound : ∀ v, (dictFind? v visited).isSome = true → AReach g occ start v (lvl v)
  least : ∀ v, (dictFind? v visited).isSome = true →
    ∀ k, AReach g occ start v k → lvl v ≤ k
  closed : ∀ v, (dictFind? v visited).isSome = true → v ∉ queue →
    ∀ w, w ∈ g.adjacency_list v → w ∉ occ → w ≠ v → (dictFind? w visited).isSome = true
  qmem : ∀ x ∈ queue, (dictFind? x visited).isSome = true
  two_level : ∃ d q₁ q₂, queue = q₁ ++ q₂ ∧ (∀ x ∈ q₁, lvl x = d) ∧
    (∀ x ∈ q₂, lvl x = d + 1)
  lvl_lt : ∀ v, (dictFind? v visited).isSome = true → lvl v < visited.length

/-- The mutual-exclusion contract of the ledger: each vertex and each
canonicalized lane key has at most one holder; a request against a foreign
holder fails and mutates nothing; a request for an unheld or self-held
resource succeeds and records the requester. -/
def MutexSpec (tm : TrafficManager) : Prop :=
  ((tm.vertex_occupancy.map Prod.fst).Nodup ∧ (tm.lane_occupancy.map Prod.fst).Nodup) ∧
  (∀ rid v a, dictFind? v tm.vertex_occupancy = some a → a ≠ rid →
    tm.request_vertex rid v = (false, tm)) ∧
  (∀ rid v, (∀ a, dictFind? v tm.vertex_occupancy = some a → a = rid) →
    (tm.request_vertex rid v).1 = true ∧
    dictFind? v (tm.request_vertex rid v).2.vertex_occupancy = some rid) ∧
  (∀ rid a b c, dictFind? (TrafficManager.normalize_lane a b) tm.lane_occupancy = some c →
    c ≠ rid → tm.request_lane rid a b = (false, tm)) ∧
  (∀ rid a b, (∀ c, dictFind? (TrafficManager.normalize_lane a b) tm.lane_occupancy = some c →
      c = rid) →
    (tm.request_lane rid a b).1 = true ∧
    dictFind? (TrafficManager.normalize_lane a b)
      (tm.request_lane rid a b).2.lane_occupancy = some rid) ∧
  (∀ v a b, dictFind? v tm.vertex_occupancy = some a →
    dictFind? v tm.vertex_occupancy = some b → a = b) ∧
  (∀ l a b, dictFind? l tm.lane_occupancy = some a →
    dictFind? l tm.lane_occupancy = some b → a = b)

/-- What one recovery-pass visit does to a WAITING robot: recompute a path to
its stored destination against the given ledger snapshot and, if one is found,
replace the path and resume MOVING. -/
def recoveryResult (g : NavGraph) (tm : TrafficManager) (r : Robot) : Robot :=
  match r.destination_vertex with
  | none => r
  | some dest =>
    match g.find_shortest_path r.current_vertex dest tm.get_occupied_vertices with
    | none => r
    | some p => if p = [] then r else { r with path := p, status := RobotStatus.MOVING }

/-- The well-keyed invariant: every binding of the robots dict maps an id to a
robot carrying that id. -/
def WellKeyed (fm : FleetManager) : Prop := ∀ p ∈ fm.robots, p.2.id = p.1

/-! ## Concrete scenario states used by witnesses -/

/-- A two-vertex line graph with an unlimited-speed unit lane. -/
def gC9 : NavGraph := { vertices := [(0, 0), (1, 0)], lanes := [(0, 1, 0)] }

/-- A WAITING robot at vertex 0 with destination 1. -/
def rC9 : Robot :=
  { id := 0, current_vertex := 0, previous_vertex := none, destination_vertex := some 1,
    path := [1], status := .WAITING, speed := 1, progress := 0 }

/-- Fleet for the C9 witness: only `rC9`, empty ledger. -/
def fmC9 : FleetManager :=
  { nav_graph := gC9, robots := [(0, rC9)], next_robot_id := 1,
    traffic_manager := ⟨[], []⟩ }

/-- A one-vertex graph with no lanes. -/
def gOne : NavGraph := { vertices := [(0, 0)], lanes := [] }

/-- A CHARGING robot parked at vertex 0. -/
def rC6 : Robot :=
  { id := 0, current_vertex := 0, previous_vertex := none, destination_vertex := none,
    path := [], status := .CHARGING, speed := 1, progress := 0 }

/-- A fleet containing only `rC6`. -/
def fmC6 : FleetManager :=
  { nav_graph := gOne, robots := [(0, rC6)], next_robot_id := 1,
    traffic_manager := ⟨[], [(0, 0)]⟩ }

/-- An empty fleet over `gOne` whose only vertex is held by foreign agent 7. -/
def fmC7 : FleetManager :=
  { nav_graph := gOne, robots := [], next_robot_id := 0,
    traffic_manager := ⟨[], [(0, 7)]⟩ }

/-- A completely empty fleet over `gOne`. -/
def fmC7e : FleetManager :=
  { nav_graph := gOne, robots := [], next_robot_id := 0, traffic_manager := ⟨[], []⟩ }

/-- A two-vertex graph whose vertices share the same coordinates, joined by an
unlimited-speed lane: its only edge is degenerate. -/
def gTwin : NavGraph := { vertices := [(0, 0), (0, 0)], lanes := [(0, 1, 0)] }

/-- A MOVING robot at vertex 0 of `gTwin`, heading to vertex 1. -/
def rTwin : Robot :=
  { id := 0, current_vertex := 0, previous_vertex := none, destination_vertex := some 1,
    path := [1], status := .MOVING, speed := 1, progress := 0 }

/-- A fleet for the C10 witness: robot 0 wants vertex 1, the lane (0,1) is
held by agent 5. -/
def fmC10 : FleetManager :=
  { nav_graph := gTwin, robots := [(0, rTwin)], next_robot_id := 1,
    traffic_manager := ⟨[((0, 1), 5)], []⟩ }

/-- Fleet for the C4 witness: robot `rTwin` alone, empty ledger. -/
def fmC4 : FleetManager :=
  { nav_graph := gTwin, robots := [(0, rTwin)], next_robot_id := 1,
    traffic_manager := ⟨[], []⟩ }

/-- The expected state of `rTwin` after completing its task. -/
def rDone : Robot :=
  { id := 0, current_vertex := 1, previous_vertex := some 0, destination_vertex := some 1,
    path := [], status := .TASK_COMPLETE, speed := 1, progress := 0 }

/-- The C5 line graph: vertices 0,1,2 at unit spacing, unlimited-speed lanes
0-1 and 1-2. -/
def gC5 : NavGraph :=
  { vertices := [(0, 0), (1, 0), (2, 0)], lanes := [(0, 1, 0), (1, 2, 0)] }

/-- The empty fleet over `gC5`. -/
def fmC5start : FleetManager :=
  { nav_graph := gC5, robots := [], next_robot_id := 0, traffic_manager := ⟨[], []⟩ }

/-- Agent A right after `spawn(0)` and `assignTask(A, 2)`: path `[0, 1, 2]`,
origin hold released. -/
def rC5a : Robot :=
  { id := 0, current_vertex := 0, previous_vertex := none, destination_vertex := some 2,
    path := [0, 1, 2], status := .MOVING, speed := 1, progress := 0 }

def fmC5a : FleetManager :=
  { nav_graph := gC5, robots := [(0, rC5a)], next_robot_id := 1,
    traffic_manager := ⟨[], []⟩ }

/-- Agent A after tick 1: the leading degenerate hop `0 → 0` was consumed, so
A is still at vertex 0 with path `[1, 2]`. -/
def rC5t1 : Robot :=
  { id := 0, current_vertex := 0, previous_vertex := some 0, destination_vertex := some 2,
    path := [1, 2], status := .MOVING, speed := 1, progress := 0 }

def fmC5t1 : FleetManager :=
  { nav_graph := gC5, robots := [(0, rC5t1)], next_robot_id := 1,
    traffic_manager := ⟨[], []⟩ }

/-- Agent A after tick 2: at vertex 1, previous 0, holding vertex 1. -/
def rC5t2 : Robot :=
  { id := 0, current_vertex := 1, previous_vertex := some 0, destination_vertex := some 2,
    path := [2], status := .MOVING, speed := 1, progress := 0 }

def fmC5t2 : FleetManager :=
  { nav_graph := gC5, robots := [(0, rC5t2)], next_robot_id := 1,
    traffic_manager := ⟨[], [(1, 0)]⟩ }

/-- Agent A after tick 3: at vertex 2, TASK_COMPLETE, every hold released. -/
def rC5t3 : Robot :=
  { id := 0, current_vertex := 2, previous_vertex := some 1, destination_vertex := some 2,
    path := [], status := .TASK_COMPLETE, speed := 1, progress := 0 }

def fmC5t3 : FleetManager :=
  { nav_graph := gC5, robots := [(0, rC5t3)], next_robot_id := 1,
    traffic_manager := ⟨[], []⟩ }

/-! # Theorems -/

/-! ## Association-list lemmas -/

theorem dictFind?_cons {κ ν : Type} [DecidableEq κ] (k k' : κ) (v : ν) (l : List (κ × ν)) :
    dictFind? k ((k', v) :: l) = if k' = k then some v else dictFind? k l := rfl

theorem dictInsert_cons {κ ν : Type} [DecidableEq κ] (k k' : κ) (v v' : ν)
    (l : List (κ × ν)) : dictInsert k v ((k', v') :: l) =
      if k' = k then (k, v) :: l else (k', v') :: dictInsert k v l := rfl

theorem dictFind?_eq_none_iff {κ ν : Type} [DecidableEq κ] (k : κ) (l : List (κ × ν)) :
    dictFind? k l = none ↔ k ∉ l.map Prod.fst := by
  induction l with
  | nil => simp [dictFind?]
  | cons p rest ih =>
    obtain ⟨k', v⟩ := p
    rw [dictFind?_cons]
    by_cases h : k' = k
    · subst h; simp
    · simp only [h, if_false, ih, List.map_cons, List.mem_cons]
      constructor
      · intro hk hc
        rcases hc with hc | hc
        · exact h hc.symm
        · exact hk hc
      · intro hk hc
        exact hk (Or.inr hc)

theorem dictFind?_insert_self {κ ν : Type} [DecidableEq κ] (k : κ) (v : ν)
    (l : List (κ × ν)) : dictFind? k (dictInsert k v l) = some v := by
  induction l with
  | nil => simp [dictInsert, dictFind?]
  | cons p rest ih =>
    obtain ⟨k', v'⟩ := p
    rw [dictInsert_cons]
    by_cases h : k' = k <;> simp [h, dictFind?_cons, ih]

theorem dictFind?_insert_ne {κ ν : Type} [DecidableEq κ] {x k : κ} (v : ν)
    (l : List (κ × ν)) (hx : x ≠ k) : dictFind? x (dictInsert k v l) = dictFind? x l := by
  have hkx : ¬ k = x := fun h => hx h.symm
  induction l with
  | nil => simp [dictInsert, dictFind?, hkx]
  | cons p rest ih =>
    obtain ⟨k', v'⟩ := p
    rw [dictInsert_cons]
    by_cases h : k' = k
    · subst h
      simp [dictFind?_cons, hkx]
    · rw [if_neg h, dictFind?_cons, dictFind?_cons]
      by_cases h2 : k' = x <;> simp [h2, ih]

theorem mem_keys_dictInsert {κ ν : Type} [DecidableEq κ] {x k : κ} {v : ν}
    {l : List (κ × ν)} : x ∈ (dictInsert k v l).map Prod.fst ↔ x = k ∨ x ∈ l.map Prod.fst := by
  induction l with
  | nil => simp [dictInsert]
  | cons p rest ih =>
    obtain ⟨k', v'⟩ := p
    rw [dictInsert_cons]
    by_cases h : k' = k
    · subst h; simp
    · simp only [h, if_false, List.map_cons, List.mem_cons, ih]; tauto

theorem nodup_keys_dictInsert {κ ν : Type} [DecidableEq κ] (k : κ) (v : ν)
    {l : List (κ × ν)} (h : (l.map Prod.fst).Nodup) :
    ((dictInsert k v l).map Prod.fst).Nodup := by
  induction l with
  | nil => simp [dictInsert]
  | cons p rest ih =>
    obtain ⟨k', v'⟩ := p
    simp only [List.map_cons, List.nodup_cons] at h
    rw [dictInsert_cons]
    by_cases hk : k' = k
    · subst hk
      rw [if_pos rfl]
      simp only [List.map_cons, List.nodup_cons]
      exact ⟨h.1, h.2⟩
    · rw [if_neg hk]
      simp only [List.map_cons, List.nodup_cons]
      refine ⟨?_, ih h.2⟩
      intro hmem
      rcases mem_keys_dictInsert.mp hmem with h1 | h1
      · exact hk h1
      · exact h.1 h1

theorem dictErase_cons {κ ν : Type} [DecidableEq κ] (k k' : κ) (v' : ν) (l : List (κ × ν)) :
    dictErase k ((k', v') :: l) =
      if k' = k then dictErase k l else (k', v') :: dictErase k l := by
  by_cases h : k' = k <;> simp [dictErase, h]

theorem dictFind?_erase_self {κ ν : Type} [DecidableEq κ] (k : κ) (l : List (κ × ν)) :
    dictFind? k (dictErase k l) = none := by
  induction l with
  | nil => simp [dictErase, dictFind?]
  | cons p rest ih =>
    obtain ⟨k', v'⟩ := p
    rw [dictErase_cons]
    by_cases h : k' = k <;> simp [h, dictFind?_cons, ih]

theorem dictFind?_erase_ne {κ ν : Type} [DecidableEq κ] {x k : κ} (l : List (κ × ν))
    (hx : x ≠ k) : dictFind? x (dictErase k l) = dictFind? x l := by
  induction l with
  | nil => simp [dictErase, dictFind?]
  | cons p rest ih =>
    obtain ⟨k', v'⟩ := p
    rw [dictErase_cons]
    by_cases h : k' = k
    · subst h
      rw [if_pos rfl, ih, dictFind?_cons, if_neg (fun hc => hx hc.symm)]
    · rw [if_neg h, dictFind?_cons, dictFind?_cons]
      by_cases h2 : k' = x <;> simp [h2, ih]

theorem nodup_keys_dictErase {κ ν : Type} [DecidableEq κ] (k : κ) {l : List (κ × ν)}
    (h : (l.map Prod.fst).Nodup) : ((dictErase k l).map Prod.fst).Nodup := by
  induction l with
  | nil => simp [dictErase]
  | cons p rest ih =>
    obtain ⟨k', v'⟩ := p
    simp only [List.map_cons, List.nodup_cons] at h
    rw [dictErase_cons]
    by_cases hk : k' = k
    · rw [if_pos hk]; exact ih h.2
    · rw [if_neg hk]
      simp only [List.map_cons, List.nodup_cons]
      refine ⟨?_, ih h.2⟩
      intro hmem
      rcases List.mem_map.mp hmem with ⟨p, hp, hpk⟩
      exact h.1 (List.mem_map.mpr ⟨p, (List.mem_filter.mp hp).1, hpk⟩)

theorem dictFind?_append {κ ν : Type} [DecidableEq κ] (k : κ) (l₁ l₂ : List (κ × ν)) :
    dictFind? k (l₁ ++ l₂) =
      match dictFind? k l₁ with
      | some v => some v
      | none => dictFind? k l₂ := by
  induction l₁ with
  | nil => simp [dictFind?]
  | cons p rest ih =>
    obtain ⟨k', v'⟩ := p
    by_cases h : k' = k <;> simp [dictFind?, h, ih]

/-! ## C1: mutual exclusion of the reservation ledger -/

theorem mutexSpec_step_vertex {tm : TrafficManager} (rid v : Nat)
    (h : (tm.vertex_occupancy.map Prod.fst).Nodup) :
    (((tm.request_vertex rid v).2.vertex_occupancy.map Prod.fst).Nodup) := by
  unfold TrafficManager.request_vertex
  cases hf : dictFind? v tm.vertex_occupancy with
  | none => exact nodup_keys_dictInsert v rid h
  | some holder =>
    by_cases hh : holder ≠ rid
    · simpa [hh] using h
    · simpa [hh] using nodup_keys_dictInsert v rid h

theorem mutexSpec_step_lane {tm : TrafficManager} (rid a b : Nat)
    (h : (tm.lane_occupancy.map Prod.fst).Nodup) :
    (((tm.request_lane rid a b).2.lane_occupancy.map Prod.fst).Nodup) := by
  unfold TrafficManager.request_lane
  cases hf : dictFind? (TrafficManager.normalize_lane a b) tm.lane_occupancy with
  | none => exact nodup_keys_dictInsert _ rid h
  | some holder =>
    by_cases hh : holder ≠ rid
    · simpa [hh] using h
    · simpa [hh] using nodup_keys_dictInsert _ rid h

theorem request_vertex_lane_unchanged (tm : TrafficManager) (rid v : Nat) :
    (tm.request_vertex rid v).2.lane_occupancy = tm.lane_occupancy := by
  unfold TrafficManager.request_vertex
  cases dictFind? v tm.vertex_occupancy with
  | none => rfl
  | some holder => by_cases hh : holder ≠ rid <;> simp [hh]

theorem request_lane_vertex_unchanged (tm : TrafficManager) (rid a b : Nat) :
    (tm.request_lane rid a b).2.vertex_occupancy = tm.vertex_occupancy := by
  unfold TrafficManager.request_lane
  cases dictFind? (TrafficManager.normalize_lane a b) tm.lane_occupancy with
  | none => rfl
  | some holder => by_cases hh : holder ≠ rid <;> simp [hh]

theorem release_vertex_lane_unchanged (tm : TrafficManager) (rid v : Nat) :
    (tm.release_vertex rid v).lane_occupancy = tm.lane_occupancy := by
  unfold TrafficManager.release_vertex
  by_cases h : dictFind? v tm.vertex_occupancy = some rid <;> simp [h]

theorem release_lane_vertex_unchanged (tm : TrafficManager) (rid a b : Nat) :
    (tm.release_lane rid a b).vertex_occupancy = tm.vertex_occupancy := by
  unfold TrafficManager.release_lane
  by_cases h : dictFind? (TrafficManager.normalize_lane a b) tm.lane_occupancy = some rid <;>
    simp [h]

theorem tmReach_nodup {tm : TrafficManager} (h : TMReach tm) :
    (tm.vertex_occupancy.map Prod.fst).Nodup ∧ (tm.lane_occupancy.map Prod.fst).Nodup := by
  induction h with
  | init => simp
  | request_lane tm rid a b _ ih =>
    exact ⟨by rw [request_lane_vertex_unchanged]; exact ih.1, mutexSpec_step_lane rid a b ih.2⟩
  | request_vertex tm rid v _ ih =>
    exact ⟨mutexSpec_step_vertex rid v ih.1, by rw [request_vertex_lane_unchanged]; exact ih.2⟩
  | release_lane tm rid a b _ ih =>
    refine ⟨by rw [release_lane_vertex_unchanged]; exact ih.1, ?_⟩
    unfold TrafficManager.release_lane
    by_cases hf : dictFind? (TrafficManager.normalize_lane a b) tm.lane_occupancy = some rid <;>
      simp [hf, nodup_keys_dictErase, ih.2]
  | release_vertex tm rid v _ ih =>
    refine ⟨?_, by rw [release_vertex_lane_unchanged]; exact ih.2⟩
    unfold TrafficManager.release_vertex
    by_cases hf : dictFind? v tm.vertex_occupancy = some rid <;>
      simp [hf, nodup_keys_dictErase, ih.1]

/-- C1. Mutual exclusion of holds: in every ledger state reachable through any
sequence of request/release calls, each vertex key and each canonicalized lane
key maps to at most one holder; a request for a resource held by a different
agent returns false and leaves the ledger unchanged, and a request by the
current holder or for an unheld resource succeeds and records the requester,
so no two distinct agents ever simultaneously hold the same vertex or lane. -/
theorem C1_mutual_exclusion (tm : TrafficManager) (h : TMReach tm) : MutexSpec tm := by
  refine ⟨tmReach_nodup h, ?_, ?_, ?_, ?_, ?_, ?_⟩
  · intro rid v a hf ha
    unfold TrafficManager.request_vertex
    simp [hf, ha]
  · intro rid v hv
    unfold TrafficManager.request_vertex
    cases hf : dictFind? v tm.vertex_occupancy with
    | none => simp [dictFind?_insert_self]
    | some holder =>
      have : holder = rid := hv holder hf
      simp [this, dictFind?_insert_self]
  · intro rid a b c hf hc
    unfold TrafficManager.request_lane
    simp [hf, hc]
  · intro rid a b hl
    unfold TrafficManager.request_lane
    cases hf : dictFind? (TrafficManager.normalize_lane a b) tm.lane_occupancy with
    | none => simp [dictFind?_insert_self]
    | some holder =>
      have : holder = rid := hl holder hf
      simp [this, dictFind?_insert_self]
  · intro v a b h1 h2
    rw [h1] at h2; exact Option.some_injective _ h2
  · intro l a b h1 h2
    rw [h1] at h2; exact Option.some_injective _ h2

/-- Witness for C1 at the empty ledger. -/
theorem C1_mutual_exclusion_witness : TMReach tmEmpty ∧ MutexSpec tmEmpty :=
  ⟨TMReach.init, C1_mutual_exclusion tmEmpty TMReach.init⟩

/-! ## C2: occupied destination is unreachable (corrected) -/

theorem processNeighbors_none_of_target_occ {occ : List Nat} {tgt : Nat}
    (htgt : tgt ∈ occ) (current : Nat) :
    ∀ (ns : List Nat) (visited : List (Nat × Option Nat)) (queue : List Nat),
      (processNeighbors occ tgt current ns visited queue).2.2 = none := by
  intro ns
  induction ns with
  | nil => intro visited queue; rfl
  | cons n ns ih =>
    intro visited queue
    rw [processNeighbors]
    by_cases h1 : n ∈ occ ∨ n = current
    · rw [if_pos h1]; exact ih visited queue
    · rw [if_neg h1]
      by_cases h2 : (dictFind? n visited).isSome
      · rw [if_pos h2]; exact ih visited queue
      · rw [if_neg h2]
        have hn : n ≠ tgt := by
          intro hc; subst hc; exact h1 (Or.inl htgt)
        simp only [hn, if_false]
        exact ih _ _

theorem bfsLoop_none_of_target_occ {g : NavGraph} {occ : List Nat} {tgt : Nat}
    (htgt : tgt ∈ occ) :
    ∀ (fuel : Nat) (visited : List (Nat × Option Nat)) (queue : List Nat),
      bfsLoop g occ tgt fuel visited queue = none := by
  intro fuel
  induction fuel with
  | zero => intro visited queue; rfl
  | succ fuel ih =>
    intro visited queue
    cases queue with
    | nil => rfl
    | cons current rest =>
      rw [bfsLoop]
      have h := processNeighbors_none_of_target_occ htgt current
        (g.adjacency_list current) visited rest
      cases hr : processNeighbors occ tgt current (g.adjacency_list current) visited rest with
      | mk vs' rest' =>
        obtain ⟨q', res⟩ := rest'
        have : res = none := by rw [hr] at h; exact h
        subst this
        exact ih vs' q'

/-- C2 counterexample: with `start = end = 0` and `0` occupied,
`find_shortest_path` returns `[0]`, not `none` — the `start == end`
short-circuit precedes the occupancy check, so the claim as stated (for
*every* pair of vertices) is false. -/
theorem C2_counterexample :
    (0 : Nat) ∈ [0] ∧ NavGraph.find_shortest_path gOne 0 0 [0] = some [0] :=
  ⟨by decide, rfl⟩

/-- C2 (amended): if the destination is occupied and differs from the start,
`find_shortest_path` returns `none`; when `start = end` the single-element
path `[start]` is returned regardless of occupancy. -/
theorem C2_occupied_destination (g : NavGraph) (start tgt : Nat) (occ : List Nat)
    (hne : start ≠ tgt) (htgt : tgt ∈ occ) :
    g.find_shortest_path start tgt occ = none := by
  unfold NavGraph.find_shortest_path
  rw [if_neg hne]
  exact bfsLoop_none_of_target_occ htgt _ _ _

/-- Witness for C2 on a concrete graph. -/
theorem C2_occupied_destination_witness :
    ((0 : Nat) ≠ 1 ∧ (1 : Nat) ∈ [1]) ∧ NavGraph.find_shortest_path gOne 0 1 [1] = none :=
  ⟨⟨by decide, by decide⟩, C2_occupied_destination gOne 0 1 [1] (by decide) (by decide)⟩

/-! ## Request/release helper lemmas -/

theorem request_vertex_foreign {tm : TrafficManager} {v a : Nat} (rid : Nat)
    (hf : dictFind? v tm.vertex_occupancy = some a) (ha : a ≠ rid) :
    tm.request_vertex rid v = (false, tm) := by
  unfold TrafficManager.request_vertex
  simp [hf, ha]

theorem request_vertex_grant {tm : TrafficManager} {v : Nat} (rid : Nat)
    (h : ∀ a, dictFind? v tm.vertex_occupancy = some a → a = rid) :
    tm.request_vertex rid v =
      (true, { tm with vertex_occupancy := dictInsert v rid tm.vertex_occupancy }) := by
  unfold TrafficManager.request_vertex
  cases hf : dictFind? v tm.vertex_occupancy with
  | none => rfl
  | some holder => simp [h holder hf]

theorem request_lane_foreign {tm : TrafficManager} {a b c : Nat} (rid : Nat)
    (hf : dictFind? (TrafficManager.normalize_lane a b) tm.lane_occupancy = some c)
    (hc : c ≠ rid) : tm.request_lane rid a b = (false, tm) := by
  unfold TrafficManager.request_lane
  simp [hf, hc]

theorem request_lane_grant {tm : TrafficManager} {a b : Nat} (rid : Nat)
    (h : ∀ c, dictFind? (TrafficManager.normalize_lane a b) tm.lane_occupancy = some c →
      c = rid) :
    tm.request_lane rid a b =
      (true, { tm with lane_occupancy := dictInsert (TrafficManager.normalize_lane a b) rid tm.lane_occupancy }) := by
  unfold TrafficManager.request_lane
  cases hf : dictFind? (TrafficManager.normalize_lane a b) tm.lane_occupancy with
  | none => rfl
  | some holder => simp [h holder hf]

/-! ## C6: charging / unknown-id precondition of `assign_task` -/

/-- C6. `assign_task` on an unknown id, or on an agent in CHARGING, fails and
returns the fleet state completely unchanged (robot status, path, destination
and reservation ledger included). -/
theorem C6_charging_precondition (fm : FleetManager) (rid dest : Nat)
    (h : dictFind? rid fm.robots = none ∨
      ∃ r, dictFind? rid fm.robots = some r ∧ r.status = RobotStatus.CHARGING) :
    fm.assign_task rid dest = (false, fm) := by
  unfold FleetManager.assign_task
  rcases h with h | ⟨r, hr, hst⟩
  · rw [h]
  · rw [hr]
    simp [hst]

/-- Witness for C6: both failure modes at concrete states. -/
theorem C6_charging_precondition_witness :
    (dictFind? 0 fmC6.robots = some rC6 ∧ rC6.status = RobotStatus.CHARGING) ∧
    fmC6.assign_task 0 0 = (false, fmC6) ∧
    dictFind? 3 fmC6.robots = none ∧
    fmC6.assign_task 3 0 = (false, fmC6) :=
  ⟨⟨rfl, rfl⟩,
   C6_charging_precondition fmC6 0 0 (Or.inr ⟨rC6, rfl, rfl⟩),
   rfl,
   C6_charging_precondition fmC6 3 0 (Or.inl rfl)⟩

/-! ## C7: spawn failure atomicity and success shape -/

/-- C7. `spawn_robot` fails with the state returned exactly as it was (no
robot created, id counter untouched, ledger untouched) when the vertex id is
out of range or the vertex is held by an agent other than the prospective id
(every holder in a reachable fleet is an existing agent with an id below
`next_robot_id`); on success the new robot is IDLE, carries the fresh id, the
id counter increments, and the ledger records the spawn vertex as held by the
new robot. -/
theorem C7_spawn_atomicity (fm : FleetManager) (vid : Nat) :
    (fm.nav_graph.vertices.length ≤ vid → fm.spawn_robot vid = (none, fm)) ∧
    (∀ a, dictFind? vid fm.traffic_manager.vertex_occupancy = some a →
      a ≠ fm.next_robot_id → fm.spawn_robot vid = (none, fm)) ∧
    (vid < fm.nav_graph.vertices.length →
      (∀ a, dictFind? vid fm.traffic_manager.vertex_occupancy = some a →
        a = fm.next_robot_id) →
      (fm.spawn_robot vid).1 = some (Robot.new fm.next_robot_id vid) ∧
      (Robot.new fm.next_robot_id vid).status = RobotStatus.IDLE ∧
      (Robot.new fm.next_robot_id vid).id = fm.next_robot_id ∧
      (fm.spawn_robot vid).2.robots =
        dictInsert fm.next_robot_id (Robot.new fm.next_robot_id vid) fm.robots ∧
      (fm.spawn_robot vid).2.next_robot_id = fm.next_robot_id + 1 ∧
      dictFind? vid (fm.spawn_robot vid).2.traffic_manager.vertex_occupancy =
        some fm.next_robot_id) := by
  refine ⟨?_, ?_, ?_⟩
  · intro h
    unfold FleetManager.spawn_robot
    rw [if_pos h]
  · intro a hf ha
    unfold FleetManager.spawn_robot
    by_cases hr : fm.nav_graph.vertices.length ≤ vid
    · rw [if_pos hr]
    · rw [if_neg hr, request_vertex_foreign fm.next_robot_id hf ha]
  · intro hlt hself
    unfold FleetManager.spawn_robot
    rw [if_neg (by omega), request_vertex_grant fm.next_robot_id hself]
    exact ⟨rfl, rfl, rfl, rfl, rfl, dictFind?_insert_self vid fm.next_robot_id _⟩

/-- Witness for C7: out-of-range failure, occupied failure, and success. -/
theorem C7_spawn_atomicity_witness :
    (fmC7.nav_graph.vertices.length ≤ 3 ∧ fmC7.spawn_robot 3 = (none, fmC7)) ∧
    (dictFind? 0 fmC7.traffic_manager.vertex_occupancy = some 7 ∧ 7 ≠ fmC7.next_robot_id ∧
      fmC7.spawn_robot 0 = (none, fmC7)) ∧
    ((0 : Nat) < fmC7e.nav_graph.vertices.length ∧
      (fmC7e.spawn_robot 0).1 = some (Robot.new fmC7e.next_robot_id 0)) := by
  refine ⟨⟨by decide, (C7_spawn_atomicity fmC7 3).1 (by decide)⟩,
    ⟨rfl, by decide, (C7_spawn_atomicity fmC7 0).2.1 7 rfl (by decide)⟩,
    ⟨by decide, ?_⟩⟩
  exact ((C7_spawn_atomicity fmC7e 0).2.2 (by decide)
    (fun a ha => by simp [fmC7e, dictFind?] at ha)).1

/-! ## Kinematics lemmas for `update_position` -/

theorem update_position_snap (g : NavGraph) (delta : ℝ) (r : Robot) (next : Nat)
    (rest : List Nat) (hs : r.status = RobotStatus.MOVING) (hp : r.path = next :: rest)
    (hcond : (1 - r.progress) * r.distance_to_next g ≤
      delta * (if g.get_lane_speed_limit r.current_vertex next = 0 then r.speed
        else min r.speed (g.get_lane_speed_limit r.current_vertex next))) :
    r.update_position g delta =
      { r with previous_vertex := some r.current_vertex, current_vertex := next,
               progress := 0 } := by
  unfold Robot.update_position
  rw [if_pos hs, hp]
  simp only
  rw [if_pos hcond]

theorem update_position_advance (g : NavGraph) (delta : ℝ) (r : Robot) (next : Nat)
    (rest : List Nat) (hs : r.status = RobotStatus.MOVING) (hp : r.path = next :: rest)
    (hcond : ¬ ((1 - r.progress) * r.distance_to_next g ≤
      delta * (if g.get_lane_speed_limit r.current_vertex next = 0 then r.speed
        else min r.speed (g.get_lane_speed_limit r.current_vertex next)))) :
    r.update_position g delta =
      { r with progress := r.progress +
          delta * (if g.get_lane_speed_limit r.current_vertex next = 0 then r.speed
            else min r.speed (g.get_lane_speed_limit r.current_vertex next)) /
          r.distance_to_next g } := by
  unfold Robot.update_position
  rw [if_pos hs, hp]
  simp only
  rw [if_neg hcond]

theorem update_position_cases (g : NavGraph) (delta : ℝ) (r : Robot) (next : Nat)
    (rest : List Nat) (hs : r.status = RobotStatus.MOVING) (hp : r.path = next :: rest) :
    r.update_position g delta =
      { r with previous_vertex := some r.current_vertex, current_vertex := next,
               progress := 0 } ∨
    ∃ q : ℝ, r.update_position g delta = { r with progress := q } := by
  by_cases hcond : (1 - r.progress) * r.distance_to_next g ≤
      delta * (if g.get_lane_speed_limit r.current_vertex next = 0 then r.speed
        else min r.speed (g.get_lane_speed_limit r.current_vertex next))
  · exact Or.inl (update_position_snap g delta r next rest hs hp hcond)
  · exact Or.inr ⟨_, update_position_advance g delta r next rest hs hp hcond⟩

/-! ## C8: degenerate edges never divide by zero -/

/-- C8. With nonnegative elapsed time, speed and speed limit, a zero-length
edge (in particular one with identical endpoint coordinates) makes the
remaining distance zero, so `update_position` takes the snap branch; the
progress-accumulation branch (the only one that divides by the edge length) is
reached only when the edge length is strictly positive. -/
theorem C8_degenerate_edge (g : NavGraph) (delta : ℝ) (r : Robot) (next : Nat)
    (rest : List Nat) (hs : r.status = RobotStatus.MOVING) (hp : r.path = next :: rest)
    (hd : 0 ≤ delta) (hsp : 0 ≤ r.speed)
    (hlim : 0 ≤ g.get_lane_speed_limit r.current_vertex next) :
    (g.get_vertex_position next = g.get_vertex_position r.current_vertex →
      r.distance_to_next g = 0) ∧
    (r.distance_to_next g = 0 →
      r.update_position g delta =
        { r with previous_vertex := some r.current_vertex, current_vertex := next,
                 progress := 0 }) ∧
    (¬ r.update_position g delta =
        { r with previous_vertex := some r.current_vertex, current_vertex := next,
                 progress := 0 } →
      0 < r.distance_to_next g) := by
  have heff : 0 ≤ (if g.get_lane_speed_limit r.current_vertex next = 0 then r.speed
      else min r.speed (g.get_lane_speed_limit r.current_vertex next)) := by
    by_cases h : g.get_lane_speed_limit r.current_vertex next = 0
    · simpa [h] using hsp
    · simp only [h, if_false]
      exact le_min hsp hlim
  have hdist0 : g.get_vertex_position next = g.get_vertex_position r.current_vertex →
      r.distance_to_next g = 0 := by
    intro hpos
    unfold Robot.distance_to_next
    rw [hp]
    simp [hpos]
  have hsnap : r.distance_to_next g = 0 →
      r.update_position g delta =
        { r with previous_vertex := some r.current_vertex, current_vertex := next,
                 progress := 0 } := by
    intro h0
    refine update_position_snap g delta r next rest hs hp ?_
    rw [h0, mul_zero]
    exact mul_nonneg hd heff
  refine ⟨hdist0, hsnap, ?_⟩
  intro hne
  rcases lt_or_le 0 (r.distance_to_next g) with h | h
  · exact h
  · have : r.distance_to_next g = 0 := by
      have hnn : 0 ≤ r.distance_to_next g := by
        unfold Robot.distance_to_next
        rw [hp]
        exact Real.sqrt_nonneg _
      linarith
    exact absurd (hsnap this) hne

/-- Witness for C8 on the degenerate edge of `gTwin`. -/
theorem C8_degenerate_edge_witness :
    (rTwin.status = RobotStatus.MOVING ∧ rTwin.path = [1] ∧ (0 : ℝ) ≤ 1 ∧
      (0 : ℝ) ≤ rTwin.speed ∧ (0 : ℝ) ≤ gTwin.get_lane_speed_limit rTwin.current_vertex 1) ∧
    (gTwin.get_vertex_position 1 = gTwin.get_vertex_position rTwin.current_vertex →
      rTwin.distance_to_next gTwin = 0) ∧
    (rTwin.distance_to_next gTwin = 0 →
      rTwin.update_position gTwin 1 =
        { rTwin with previous_vertex := some rTwin.current_vertex, current_vertex := 1,
                     progress := 0 }) := by
  have hlim : gTwin.get_lane_speed_limit rTwin.current_vertex 1 = 0 := by
    simp [gTwin, rTwin, NavGraph.get_lane_speed_limit, List.find?]
  refine ⟨⟨rfl, rfl, zero_le_one, zero_le_one, le_of_eq hlim.symm⟩, ?_, ?_⟩
  · exact (C8_degenerate_edge gTwin 1 rTwin 1 [] rfl rfl zero_le_one zero_le_one
      (le_of_eq hlim.symm)).1
  · exact (C8_degenerate_edge gTwin 1 rTwin 1 [] rfl rfl zero_le_one zero_le_one
      (le_of_eq hlim.symm)).2.1

/-! ## C10: a vertex hold granted before a lane denial is not rolled back -/

/-- C10. In the movement pass, when the next vertex differs from the current
one, the vertex hold request succeeds, and the subsequent lane hold request is
denied (the canonical lane is held by another agent), `_process_movement`
parks the robot WAITING without advancing it — yet the ledger it returns still
records the robot as holder of the next vertex it never reached. -/
theorem C10_partial_acquisition_retained (fm : FleetManager) (delta : ℝ) (r : Robot)
    (next : Nat) (rest : List Nat) (c : Nat)
    (hp : r.path = next :: rest) (hne : next ≠ r.current_vertex)
    (hv : ∀ a, dictFind? next fm.traffic_manager.vertex_occupancy = some a → a = r.id)
    (hl : dictFind? (TrafficManager.normalize_lane r.current_vertex next)
      fm.traffic_manager.lane_occupancy = some c)
    (hc : c ≠ r.id) :
    fm.process_movement delta r =
      { fm with
        traffic_manager := { fm.traffic_manager with vertex_occupancy := dictInsert next r.id fm.traffic_manager.vertex_occupancy },
        robots := dictInsert r.id { r with status := RobotStatus.WAITING } fm.robots } ∧
    dictFind? next (fm.process_movement delta r).traffic_manager.vertex_occupancy =
      some r.id ∧
    dictFind? r.id (fm.process_movement delta r).robots =
      some { r with status := RobotStatus.WAITING } := by
  have hcm : fm.can_move_to r next =
      (false, { fm.traffic_manager with vertex_occupancy := dictInsert next r.id fm.traffic_manager.vertex_occupancy }) := by
    unfold FleetManager.can_move_to
    rw [if_neg hne, request_vertex_grant r.id hv]
    simp only
    exact request_lane_foreign r.id hl hc
  have hpm : fm.process_movement delta r =
      { fm with
        traffic_manager := { fm.traffic_manager with vertex_occupancy := dictInsert next r.id fm.traffic_manager.vertex_occupancy },
        robots := dictInsert r.id { r with status := RobotStatus.WAITING } fm.robots } := by
    unfold FleetManager.process_movement
    rw [hp]
    simp only
    rw [hcm]
  refine ⟨hpm, ?_, ?_⟩
  · rw [hpm]
    exact dictFind?_insert_self next r.id _
  · rw [hpm]
    exact dictFind?_insert_self r.id _ _

/-- Witness for C10. -/
theorem C10_partial_acquisition_retained_witness :
    (rTwin.path = [1] ∧ (1 : Nat) ≠ rTwin.current_vertex ∧
      dictFind? (TrafficManager.normalize_lane rTwin.current_vertex 1)
        fmC10.traffic_manager.lane_occupancy = some 5 ∧ (5 : Nat) ≠ rTwin.id) ∧
    dictFind? 1 (fmC10.process_movement 1 rTwin).traffic_manager.vertex_occupancy =
      some rTwin.id ∧
    dictFind? rTwin.id (fmC10.process_movement 1 rTwin).robots =
      some { rTwin with status := RobotStatus.WAITING } :=
  ⟨⟨rfl, by decide, rfl, by decide⟩,
   (C10_partial_acquisition_retained fmC10 1 rTwin 1 [] 5 rfl (by decide)
     (fun a ha => by simp [fmC10, dictFind?] at ha) rfl (by decide)).2.1,
   (C10_partial_acquisition_retained fmC10 1 rTwin 1 [] 5 rfl (by decide)
     (fun a ha => by simp [fmC10, dictFind?] at ha) rfl (by decide)).2.2⟩

/-! ## C4: completion releases resources -/

theorem request_vertex_true_find {tm tm' : TrafficManager} {rid v : Nat}
    (h : tm.request_vertex rid v = (true, tm')) :
    dictFind? v tm'.vertex_occupancy = some rid ∧
    tm'.lane_occupancy = tm.lane_occupancy := by
  unfold TrafficManager.request_vertex at h
  cases hf : dictFind? v tm.vertex_occupancy with
  | none =>
    rw [hf] at h
    simp only at h
    have h2 : tm' = { tm with vertex_occupancy := dictInsert v rid tm.vertex_occupancy } := by
      have := congrArg Prod.snd h
      simpa using this.symm
    subst h2
    exact ⟨dictFind?_insert_self v rid _, rfl⟩
  | some holder =>
    rw [hf] at h
    simp only at h
    by_cases hh : holder ≠ rid
    · rw [if_pos hh] at h
      exact absurd (congrArg Prod.fst h) (by simp)
    · rw [if_neg hh] at h
      have h2 : tm' = { tm with vertex_occupancy := dictInsert v rid tm.vertex_occupancy } := by
        have := congrArg Prod.snd h
        simpa using this.symm
      subst h2
      exact ⟨dictFind?_insert_self v rid _, rfl⟩

theorem request_lane_true_vertex {tm tm' : TrafficManager} {rid a b : Nat}
    (h : tm.request_lane rid a b = (true, tm')) :
    tm'.vertex_occupancy = tm.vertex_occupancy := by
  unfold TrafficManager.request_lane at h
  cases hf : dictFind? (TrafficManager.normalize_lane a b) tm.lane_occupancy with
  | none =>
    rw [hf] at h
    simp only at h
    have h2 := congrArg Prod.snd h
    simp only at h2
    rw [← h2]
  | some holder =>
    rw [hf] at h
    simp only at h
    by_cases hh : holder ≠ rid
    · rw [if_pos hh] at h
      exact absurd (congrArg Prod.fst h) (by simp)
    · rw [if_neg hh] at h
      have h2 := congrArg Prod.snd h
      simp only at h2
      rw [← h2]

theorem can_move_to_true_find {fm : FleetManager} {r : Robot} {next : Nat}
    {tm₁ : TrafficManager} (hne : next ≠ r.current_vertex)
    (h : fm.can_move_to r next = (true, tm₁)) :
    dictFind? next tm₁.vertex_occupancy = some r.id := by
  unfold FleetManager.can_move_to at h
  rw [if_neg hne] at h
  cases hrv : fm.traffic_manager.request_vertex r.id next with
  | mk fv tmv =>
    rw [hrv] at h
    cases fv with
    | false => simp only at h; cases h
    | true =>
      simp only at h
      have h1 := (request_vertex_true_find hrv).1
      have h2 := request_lane_true_vertex h
      rw [h2]
      exact h1

theorem release_vertex_find_ne {tm : TrafficManager} {rid v w : Nat} (hvw : v ≠ w) :
    dictFind? v (tm.release_vertex rid w).vertex_occupancy =
      dictFind? v tm.vertex_occupancy := by
  unfold TrafficManager.release_vertex
  by_cases h : dictFind? w tm.vertex_occupancy = some rid
  · rw [if_pos h]
    exact dictFind?_erase_ne _ hvw
  · rw [if_neg h]

theorem release_vertex_find_self {tm : TrafficManager} {rid v : Nat}
    (h : dictFind? v tm.vertex_occupancy = some rid) :
    dictFind? v (tm.release_vertex rid v).vertex_occupancy = none := by
  unfold TrafficManager.release_vertex
  rw [if_pos h]
  exact dictFind?_erase_self v _

/-- C4. Whenever the movement pass makes an agent actually reach the next path
vertex (here: the head of a singleton path differing from the current vertex,
with the processed robot ending up at it) and popping that vertex empties the
path, the agent's status becomes TASK_COMPLETE and the final vertex is no
longer among the occupied vertices. -/
theorem C4_completion_releases (fm : FleetManager) (delta : ℝ) (r : Robot) (v : Nat)
    (hs : r.status = RobotStatus.MOVING) (hp : r.path = [v]) (hne : v ≠ r.current_vertex) :
    ∀ r', dictFind? r.id (fm.process_movement delta r).robots = some r' →
      r'.current_vertex = v →
      r'.status = RobotStatus.TASK_COMPLETE ∧
      v ∉ (fm.process_movement delta r).traffic_manager.get_occupied_vertices := by
  intro r' hr' hrv
  unfold FleetManager.process_movement at hr' ⊢
  rw [hp] at hr' ⊢
  simp only at hr' ⊢
  cases hcm : fm.can_move_to r v with
  | mk flag tm₁ =>
    rw [hcm] at hr'
    cases flag with
    | false =>
      simp only at hr' ⊢
      rw [dictFind?_insert_self] at hr'
      cases hr'
      exact absurd hrv (fun hc => hne (hc ▸ rfl))
    | true =>
      simp only at hr' ⊢
      rcases update_position_cases fm.nav_graph delta r v [] hs hp with hup | ⟨q, hup⟩
      · rw [hup] at hr' ⊢
        rw [if_pos rfl] at hr' ⊢
        unfold FleetManager.handle_vertex_reached at hr' ⊢
        rw [hp] at hr' ⊢
        simp only [List.tail_cons, if_true] at hr' ⊢
        rw [dictFind?_insert_self] at hr'
        cases hr'
        refine ⟨rfl, ?_⟩
        rw [TrafficManager.get_occupied_vertices, ← dictFind?_eq_none_iff]
        have hfind₁ : dictFind? v tm₁.vertex_occupancy = some r.id :=
          can_move_to_true_find hne hcm

        have hfind₂ : dictFind? v
            ((tm₁.release_lane r.id r.current_vertex v).release_vertex r.id
              r.current_vertex).vertex_occupancy = some r.id := by
          rw [release_vertex_find_ne hne]
          have : (tm₁.release_lane r.id r.current_vertex v).vertex_occupancy =
              tm₁.vertex_occupancy := release_lane_vertex_unchanged tm₁ r.id _ v
          unfold dictFind? at *
          rw [show ((tm₁.release_lane r.id r.current_vertex v).vertex_occupancy) =
            tm₁.vertex_occupancy from this]
          exact hfind₁
        exact release_vertex_find_self hfind₂
      · rw [hup] at hr' ⊢
        rw [if_neg (fun hc : r.current_vertex = v => hne hc.symm)] at hr' ⊢
        rw [dictFind?_insert_self] at hr'
        cases hr'
        exact absurd hrv (fun hc => hne (hc ▸ rfl))

theorem rTwin_snap : rTwin.update_position gTwin 0 =
    { rTwin with previous_vertex := some rTwin.current_vertex, current_vertex := 1,
                 progress := 0 } := by
  refine update_position_snap gTwin 0 rTwin 1 [] rfl rfl ?_
  have hdist : rTwin.distance_to_next gTwin = 0 := by
    unfold Robot.distance_to_next
    simp [rTwin, gTwin, NavGraph.get_vertex_position]
  rw [hdist, mul_zero, zero_mul]

theorem fmC4_process : fmC4.process_movement 0 rTwin =
    { nav_graph := gTwin, robots := [(0, rDone)], next_robot_id := 1,
      traffic_manager := ⟨[], []⟩ } := by
  unfold FleetManager.process_movement
  rw [show rTwin.path = [1] from rfl, show fmC4.nav_graph = gTwin from rfl]
  simp only
  rw [show fmC4.can_move_to rTwin 1 = (true, ⟨[((0, 1), 0)], [(1, 0)]⟩) from rfl]
  simp only
  rw [rTwin_snap]
  rfl

/-- Witness for C4 at a concrete completed movement. -/
theorem C4_completion_releases_witness :
    (rTwin.status = RobotStatus.MOVING ∧ rTwin.path = [1] ∧
      (1 : Nat) ≠ rTwin.current_vertex ∧
      dictFind? rTwin.id (fmC4.process_movement 0 rTwin).robots = some rDone ∧
      rDone.current_vertex = 1) ∧
    rDone.status = RobotStatus.TASK_COMPLETE ∧
    (1 : Nat) ∉ (fmC4.process_movement 0 rTwin).traffic_manager.get_occupied_vertices := by
  have hfind : dictFind? rTwin.id (fmC4.process_movement 0 rTwin).robots = some rDone := by
    rw [fmC4_process]
    rfl
  exact ⟨⟨rfl, rfl, by decide, hfind, rfl⟩,
    C4_completion_releases fmC4 0 rTwin 1 rfl rfl (by decide) rDone hfind rfl⟩

/-! ## C9: same-tick recovery eligibility -/

theorem dictFind?_mem {κ ν : Type} [DecidableEq κ] {k : κ} {v : ν} {l : List (κ × ν)}
    (h : dictFind? k l = some v) : (k, v) ∈ l := by
  induction l with
  | nil => cases h
  | cons p rest ih =>
    obtain ⟨k', v'⟩ := p
    rw [dictFind?_cons] at h
    by_cases hk : k' = k
    · rw [if_pos hk] at h
      cases h
      subst hk
      exact List.mem_cons_self _ _
    · rw [if_neg hk] at h
      exact List.mem_cons_of_mem _ (ih h)

theorem mem_dictInsert {κ ν : Type} [DecidableEq κ] {p : κ × ν} {k : κ} {v : ν}
    {l : List (κ × ν)} (h : p ∈ dictInsert k v l) : p = (k, v) ∨ p ∈ l := by
  induction l with
  | nil => simpa [dictInsert] using h
  | cons q rest ih =>
    obtain ⟨k', v'⟩ := q
    rw [dictInsert_cons] at h
    by_cases hk : k' = k
    · rw [if_pos hk] at h
      rcases List.mem_cons.mp h with h | h
      · exact Or.inl h
      · exact Or.inr (List.mem_cons_of_mem _ h)
    · rw [if_neg hk] at h
      rcases List.mem_cons.mp h with h | h
      · exact Or.inr (h ▸ List.mem_cons_self _ _)
      · rcases ih h with h | h
        · exact Or.inl h
        · exact Or.inr (List.mem_cons_of_mem _ h)

theorem check_waiting_tm (fm : FleetManager) (r : Robot) :
    (fm.check_waiting_robot r).traffic_manager = fm.traffic_manager ∧
    (fm.check_waiting_robot r).nav_graph = fm.nav_graph := by
  unfold FleetManager.check_waiting_robot
  cases r.destination_vertex with
  | none => exact ⟨rfl, rfl⟩
  | some dest =>
    simp only
    cases fm.nav_graph.find_shortest_path r.current_vertex dest
        fm.traffic_manager.get_occupied_vertices with
    | none => exact ⟨rfl, rfl⟩
    | some p => by_cases hp : p = [] <;> simp [hp]

theorem waiting_step_tm (fm : FleetManager) (rid : Nat) :
    (fm.waiting_step rid).traffic_manager = fm.traffic_manager ∧
    (fm.waiting_step rid).nav_graph = fm.nav_graph := by
  unfold FleetManager.waiting_step
  cases dictFind? rid fm.robots with
  | none => exact ⟨rfl, rfl⟩
  | some robot =>
    simp only
    by_cases hc : robot.status = RobotStatus.WAITING ∧ robot.path ≠ []
    · rw [if_pos hc]; exact check_waiting_tm fm robot
    · rw [if_neg hc]; exact ⟨rfl, rfl⟩

theorem check_waiting_wellKeyed {fm : FleetManager} {r : Robot} (hwk : WellKeyed fm) :
    WellKeyed (fm.check_waiting_robot r) := by
  unfold FleetManager.check_waiting_robot
  cases r.destination_vertex with
  | none => exact hwk
  | some dest =>
    simp only
    cases fm.nav_graph.find_shortest_path r.current_vertex dest
        fm.traffic_manager.get_occupied_vertices with
    | none => exact hwk
    | some p =>
      by_cases hp : p = []
      · simp only [hp, if_true]; exact hwk
      · simp only [hp, if_false]
        intro q hq
        rcases mem_dictInsert hq with h | h
        · subst h; rfl
        · exact hwk q h

theorem waiting_step_wellKeyed {fm : FleetManager} (rid : Nat) (hwk : WellKeyed fm) :
    WellKeyed (fm.waiting_step rid) := by
  unfold FleetManager.waiting_step
  cases hf : dictFind? rid fm.robots with
  | none => exact hwk
  | some robot =>
    simp only
    by_cases hc : robot.status = RobotStatus.WAITING ∧ robot.path ≠ []
    · rw [if_pos hc]
      exact check_waiting_wellKeyed hwk
    · rw [if_neg hc]; exact hwk

theorem waiting_step_other {fm : FleetManager} {rid x : Nat} (hwk : WellKeyed fm)
    (hne : rid ≠ x) :
    dictFind? x (fm.waiting_step rid).robots = dictFind? x fm.robots := by
  unfold FleetManager.waiting_step
  cases hf : dictFind? rid fm.robots with
  | none => rfl
  | some robot =>
    simp only
    by_cases hc : robot.status = RobotStatus.WAITING ∧ robot.path ≠ []
    · rw [if_pos hc]
      have hid : robot.id = rid := hwk _ (dictFind?_mem hf)
      unfold FleetManager.check_waiting_robot
      cases robot.destination_vertex with
      | none => rfl
      | some dest =>
        simp only
        cases fm.nav_graph.find_shortest_path robot.current_vertex dest
            fm.traffic_manager.get_occupied_vertices with
        | none => rfl
        | some p =>
          simp only
          by_cases hp : p = []
          · rw [if_pos hp]
          · simp only [hp, if_false]
            rw [hid]
            exact dictFind?_insert_ne _ _ (fun h => hne h.symm)
    · rw [if_neg hc]

theorem waiting_step_self {fm : FleetManager} {rid : Nat} {r : Robot} (hwk : WellKeyed fm)
    (hf : dictFind? rid fm.robots = some r) (hst : r.status = RobotStatus.WAITING)
    (hp : r.path ≠ []) :
    dictFind? rid (fm.waiting_step rid).robots =
      some (recoveryResult fm.nav_graph fm.traffic_manager r) := by
  have hid : r.id = rid := hwk _ (dictFind?_mem hf)
  unfold FleetManager.waiting_step
  rw [hf]
  simp only
  rw [if_pos ⟨hst, hp⟩]
  unfold FleetManager.check_waiting_robot recoveryResult
  cases r.destination_vertex with
  | none => exact hf
  | some dest =>
    simp only
    cases fm.nav_graph.find_shortest_path r.current_vertex dest
        fm.traffic_manager.get_occupied_vertices with
    | none => exact hf
    | some p =>
      by_cases hpe : p = []
      · simp only [hpe, if_true]; exact hf
      · simp only [hpe, if_false]
        rw [hid]
        exact dictFind?_insert_self _ _ _

theorem fold_waiting_tm (L : List Nat) (fm : FleetManager) :
    (L.foldl (fun st rid => st.waiting_step rid) fm).traffic_manager = fm.traffic_manager ∧
    (L.foldl (fun st rid => st.waiting_step rid) fm).nav_graph = fm.nav_graph := by
  induction L generalizing fm with
  | nil => exact ⟨rfl, rfl⟩
  | cons a L ih =>
    simp only [List.foldl_cons]
    refine ⟨?_, ?_⟩
    · rw [(ih (fm.waiting_step a)).1, (waiting_step_tm fm a).1]
    · rw [(ih (fm.waiting_step a)).2, (waiting_step_tm fm a).2]

theorem fold_waiting_wellKeyed (L : List Nat) {fm : FleetManager} (hwk : WellKeyed fm) :
    WellKeyed (L.foldl (fun st rid => st.waiting_step rid) fm) := by
  induction L generalizing fm with
  | nil => exact hwk
  | cons a L ih =>
    simp only [List.foldl_cons]
    exact ih (waiting_step_wellKeyed a hwk)

theorem fold_waiting_other (L : List Nat) {fm : FleetManager} {x : Nat}
    (hwk : WellKeyed fm) (hx : x ∉ L) :
    dictFind? x (L.foldl (fun st rid => st.waiting_step rid) fm).robots =
      dictFind? x fm.robots := by
  induction L generalizing fm with
  | nil => rfl
  | cons a L ih =>
    simp only [List.foldl_cons]
    have hax : a ≠ x := fun h => hx (h ▸ List.mem_cons_self _ _)
    rw [ih (waiting_step_wellKeyed a hwk) (fun h => hx (List.mem_cons_of_mem _ h)),
      waiting_step_other hwk hax]

/-- C9. Within a single `update_robots` tick, every robot that comes out of
the movement pass WAITING with a non-empty path is visited by the recovery
pass of the same tick: the second pass never touches the ledger, so each such
robot ends the tick in exactly the state produced by recomputing a shortest
path to its stored destination against the post-movement-pass occupancy
snapshot — path replaced and status back to MOVING when a path is found,
unchanged (and hence retried next tick, with no retry limit) otherwise. -/
theorem C9_same_tick_recovery (fm : FleetManager) (delta : ℝ) (rid : Nat) (r : Robot)
    (hwk : WellKeyed (fm.movement_pass delta))
    (hnodup : (((fm.movement_pass delta).robots.map Prod.fst)).Nodup)
    (hfind : dictFind? rid (fm.movement_pass delta).robots = some r)
    (hst : r.status = RobotStatus.WAITING) (hp : r.path ≠ []) :
    (fm.update_robots delta).traffic_manager = (fm.movement_pass delta).traffic_manager ∧
    dictFind? rid (fm.update_robots delta).robots =
      some (recoveryResult (fm.movement_pass delta).nav_graph
        (fm.movement_pass delta).traffic_manager r) := by
  unfold FleetManager.update_robots
  simp only
  constructor
  · exact (fold_waiting_tm _ _).1
  · have hmem : rid ∈ (fm.movement_pass delta).robots.map Prod.fst :=
      List.mem_map.mpr ⟨(rid, r), dictFind?_mem hfind, rfl⟩
    rcases List.append_of_mem hmem with ⟨L₁, L₂, hL⟩
    rw [hL]
    have hnd : (L₁ ++ rid :: L₂).Nodup := hL ▸ hnodup
    have hrid1 : rid ∉ L₁ := fun hc =>
      (List.disjoint_of_nodup_append hnd) hc (List.mem_cons_self _ _)
    have hrid2 : rid ∉ L₂ := by
      have := hnd.of_append_right
      exact (List.nodup_cons.mp this).1
    rw [List.foldl_append, List.foldl_cons]
    set fmA := L₁.foldl (fun st rid => st.waiting_step rid) (fm.movement_pass delta) with hfmA
    have hwkA : WellKeyed fmA := fold_waiting_wellKeyed L₁ hwk
    have htmA : fmA.traffic_manager = (fm.movement_pass delta).traffic_manager :=
      (fold_waiting_tm L₁ _).1
    have hnavA : fmA.nav_graph = (fm.movement_pass delta).nav_graph :=
      (fold_waiting_tm L₁ _).2
    have hfindA : dictFind? rid fmA.robots = some r := by
      rw [fold_waiting_other L₁ hwk hrid1]
      exact hfind
    have hstep := waiting_step_self hwkA hfindA hst hp
    rw [htmA, hnavA] at hstep
    rw [fold_waiting_other L₂ (waiting_step_wellKeyed rid hwkA) hrid2]
    exact hstep

/-- Witness for C9: the waiting robot is recovered within the tick and
resumes MOVING along the freshly computed path. -/
theorem C9_same_tick_recovery_witness :
    (WellKeyed (fmC9.movement_pass 1) ∧
      dictFind? 0 (fmC9.movement_pass 1).robots = some rC9 ∧
      rC9.status = RobotStatus.WAITING ∧ rC9.path ≠ []) ∧
    dictFind? 0 (fmC9.update_robots 1).robots =
      some (recoveryResult (fmC9.movement_pass 1).nav_graph
        (fmC9.movement_pass 1).traffic_manager rC9) ∧
    recoveryResult (fmC9.movement_pass 1).nav_graph
        (fmC9.movement_pass 1).traffic_manager rC9 =
      { rC9 with path := [0, 1], status := RobotStatus.MOVING } := by
  have hwk : WellKeyed (fmC9.movement_pass 1) := by
    intro p hp
    rcases List.mem_singleton.mp hp with rfl
    rfl
  refine ⟨⟨hwk, rfl, rfl, by decide⟩, ?_, rfl⟩
  exact (C9_same_tick_recovery fmC9 1 0 rC9 hwk (by decide) rfl rfl (by decide)).2

/-! ## C5: the end-to-end line-graph scenario (corrected) -/

theorem fmC5_assign_eq : ((fmC5start.spawn_robot 0).2.assign_task 0 2).2 = fmC5a := rfl

theorem fmC5_tick1 : fmC5a.update_robots 1 = fmC5t1 := by
  have hsnap : rC5a.update_position gC5 1 =
      { rC5a with previous_vertex := some rC5a.current_vertex, current_vertex := 0,
                  progress := 0 } := by
    refine update_position_snap gC5 1 rC5a 0 [1, 2] rfl rfl ?_
    have hdist : rC5a.distance_to_next gC5 = 0 := by
      unfold Robot.distance_to_next
      simp [rC5a, gC5, NavGraph.get_vertex_position]
    rw [hdist, mul_zero, show gC5.get_lane_speed_limit rC5a.current_vertex 0 = 0 from rfl,
      if_pos rfl, show rC5a.speed = (1 : ℝ) from rfl]
    norm_num
  have hmv : fmC5a.movement_pass 1 = fmC5t1 := by
    unfold FleetManager.movement_pass
    rw [show fmC5a.robots.map Prod.fst = [0] from rfl]
    simp only [List.foldl_cons, List.foldl_nil]
    unfold FleetManager.movement_step
    rw [show dictFind? 0 fmC5a.robots = some rC5a from rfl]
    simp only
    rw [if_pos (show rC5a.status = RobotStatus.MOVING ∧ rC5a.path ≠ [] from ⟨rfl, by decide⟩)]
    unfold FleetManager.process_movement
    rw [show rC5a.path = [0, 1, 2] from rfl]
    simp only
    rw [show fmC5a.can_move_to rC5a 0 = (true, ⟨[], []⟩) from rfl]
    simp only
    rw [show fmC5a.nav_graph = gC5 from rfl, hsnap]
    rfl
  unfold FleetManager.update_robots
  simp only
  rw [hmv]
  rfl

theorem fmC5_tick2 : fmC5t1.update_robots 1 = fmC5t2 := by
  have hdist : rC5t1.distance_to_next gC5 = 1 := by
    unfold Robot.distance_to_next
    simp [rC5t1, gC5, NavGraph.get_vertex_position]
  have hsnap : rC5t1.update_position gC5 1 =
      { rC5t1 with previous_vertex := some rC5t1.current_vertex, current_vertex := 1,
                   progress := 0 } := by
    refine update_position_snap gC5 1 rC5t1 1 [2] rfl rfl ?_
    rw [hdist, show gC5.get_lane_speed_limit rC5t1.current_vertex 1 = 0 from rfl,
      if_pos rfl, show rC5t1.speed = (1 : ℝ) from rfl,
      show rC5t1.progress = (0 : ℝ) from rfl]
    norm_num
  have hmv : fmC5t1.movement_pass 1 = fmC5t2 := by
    unfold FleetManager.movement_pass
    rw [show fmC5t1.robots.map Prod.fst = [0] from rfl]
    simp only [List.foldl_cons, List.foldl_nil]
    unfold FleetManager.movement_step
    rw [show dictFind? 0 fmC5t1.robots = some rC5t1 from rfl]
    simp only
    rw [if_pos (show rC5t1.status = RobotStatus.MOVING ∧ rC5t1.path ≠ []
      from ⟨rfl, by decide⟩)]
    unfold FleetManager.process_movement
    rw [show rC5t1.path = [1, 2] from rfl]
    simp only
    rw [show fmC5t1.can_move_to rC5t1 1 = (true, ⟨[((0, 1), 0)], [(1, 0)]⟩) from rfl]
    simp only
    rw [show fmC5t1.nav_graph = gC5 from rfl, hsnap]
    rfl
  unfold FleetManager.update_robots
  simp only
  rw [hmv]
  rfl

theorem fmC5_tick3 : fmC5t2.update_robots 1 = fmC5t3 := by
  have hdist : rC5t2.distance_to_next gC5 = 1 := by
    unfold Robot.distance_to_next
    simp [rC5t2, gC5, NavGraph.get_vertex_position]
    norm_num
  have hsnap : rC5t2.update_position gC5 1 =
      { rC5t2 with previous_vertex := some rC5t2.current_vertex, current_vertex := 2,
                   progress := 0 } := by
    refine update_position_snap gC5 1 rC5t2 2 [] rfl rfl ?_
    rw [hdist, show gC5.get_lane_speed_limit rC5t2.current_vertex 2 = 0 from rfl,
      if_pos rfl, show rC5t2.speed = (1 : ℝ) from rfl,
      show rC5t2.progress = (0 : ℝ) from rfl]
    norm_num
  have hmv : fmC5t2.movement_pass 1 = fmC5t3 := by
    unfold FleetManager.movement_pass
    rw [show fmC5t2.robots.map Prod.fst = [0] from rfl]
    simp only [List.foldl_cons, List.foldl_nil]
    unfold FleetManager.movement_step
    rw [show dictFind? 0 fmC5t2.robots = some rC5t2 from rfl]
    simp only
    rw [if_pos (show rC5t2.status = RobotStatus.MOVING ∧ rC5t2.path ≠ []
      from ⟨rfl, by decide⟩)]
    unfold FleetManager.process_movement
    rw [show rC5t2.path = [2] from rfl]
    simp only
    rw [show fmC5t2.can_move_to rC5t2 2 = (true, ⟨[((1, 2), 0)], [(1, 0), (2, 0)]⟩)
      from rfl]
    simp only
    rw [show fmC5t2.nav_graph = gC5 from rfl, hsnap]
    rfl
  unfold FleetManager.update_robots
  simp only
  rw [hmv]
  rfl

/-- C5 counterexample: in the spec's line-graph scenario the first tick only
consumes the degenerate leading hop (the computed path starts with the current
vertex), so after one tick A is still at vertex 0, and after two ticks A is at
vertex 1 and still MOVING, not TASK_COMPLETE; moreover completion (tick 3)
*releases* vertex 2 rather than keeping it held. -/
theorem C5_counterexample :
    ((fmC5start.spawn_robot 0).2.assign_task 0 2).2 = fmC5a ∧
    dictFind? 0 (fmC5a.update_robots 1).robots = some rC5t1 ∧
    rC5t1.current_vertex = 0 ∧ rC5t1.current_vertex ≠ 1 ∧
    dictFind? 0 ((fmC5a.update_robots 1).update_robots 1).robots = some rC5t2 ∧
    rC5t2.status = RobotStatus.MOVING ∧ rC5t2.status ≠ RobotStatus.TASK_COMPLETE := by
  refine ⟨fmC5_assign_eq, ?_, rfl, by decide, ?_, rfl, by decide⟩
  · rw [fmC5_tick1]; rfl
  · rw [fmC5_tick1, fmC5_tick2]; rfl

/-- C5 (amended). On the line graph 0-1-2 with unit lanes and unlimited speed,
spawning A at vertex 0 and assigning destination 2 yields path `[0, 1, 2]`
with the origin hold released.  The first unit tick consumes the path's
leading copy of vertex 0, leaving A at vertex 0 with path `[1, 2]` and no
vertex held; the second tick moves A to vertex 1 (previous 0, vertex 0 unheld,
vertex 1 held by A); the third tick leaves A at vertex 2 with status
TASK_COMPLETE, vertex 1 released, and vertex 2 released as well (completion
releases the final vertex instead of keeping it held). -/
theorem C5_end_to_end :
    ((fmC5start.spawn_robot 0).2.assign_task 0 2).2 = fmC5a ∧
    rC5a.path = [0, 1, 2] ∧
    fmC5a.update_robots 1 = fmC5t1 ∧
    (rC5t1.current_vertex = 0 ∧ rC5t1.path = [1, 2] ∧
      fmC5t1.traffic_manager.get_occupied_vertices = []) ∧
    fmC5t1.update_robots 1 = fmC5t2 ∧
    (rC5t2.current_vertex = 1 ∧ rC5t2.previous_vertex = some 0 ∧
      dictFind? 0 fmC5t2.traffic_manager.vertex_occupancy = none ∧
      dictFind? 1 fmC5t2.traffic_manager.vertex_occupancy = some 0) ∧
    fmC5t2.update_robots 1 = fmC5t3 ∧
    (rC5t3.current_vertex = 2 ∧ rC5t3.status = RobotStatus.TASK_COMPLETE ∧
      dictFind? 1 fmC5t3.traffic_manager.vertex_occupancy = none ∧
      dictFind? 2 fmC5t3.traffic_manager.vertex_occupancy = none) :=
  ⟨fmC5_assign_eq, rfl, fmC5_tick1, ⟨rfl, rfl, rfl⟩, fmC5_tick2, ⟨rfl, rfl, rfl, rfl⟩,
   fmC5_tick3, ⟨rfl, rfl, rfl, rfl⟩⟩

/-! ## C3: BFS optimality — infrastructure -/

theorem dictFind?_isSome_iff {κ ν : Type} [DecidableEq κ] (k : κ) (l : List (κ × ν)) :
    (dictFind? k l).isSome = true ↔ k ∈ l.map Prod.fst := by
  rw [Option.isSome_iff_ne_none]
  constructor
  · intro h
    by_contra hmem
    exact h ((dictFind?_eq_none_iff k l).mpr hmem)
  · intro hmem hnone
    exact (dictFind?_eq_none_iff k l).mp hnone hmem

theorem find_snoc_old {κ ν : Type} [DecidableEq κ] {k : κ} {p : ν} {l : List (κ × ν)}
    (h : dictFind? k l = some p) (e : κ × ν) : dictFind? k (l ++ [e]) = some p := by
  rw [dictFind?_append, h]

theorem find_snoc_fresh {κ ν : Type} [DecidableEq κ] {k : κ} {l : List (κ × ν)} (v : ν)
    (h : dictFind? k l = none) : dictFind? k (l ++ [(k, v)]) = some v := by
  rw [dictFind?_append, h]
  simp [dictFind?]

theorem find_snoc_ne {κ ν : Type} [DecidableEq κ] {x k : κ} (v : ν) (l : List (κ × ν))
    (hx : x ≠ k) : dictFind? x (l ++ [(k, v)]) = dictFind? x l := by
  rw [dictFind?_append]
  cases h : dictFind? x l with
  | some p => rfl
  | none => simp [dictFind?, Ne.symm hx]

theorem isSome_snoc {κ ν : Type} [DecidableEq κ] {x k : κ} {v : ν} {l : List (κ × ν)}
    (h : (dictFind? x (l ++ [(k, v)])).isSome = true) :
    x = k ∨ (dictFind? x l).isSome = true := by
  by_cases hx : x = k
  · exact Or.inl hx
  · right
    rw [find_snoc_ne v l hx] at h
    exact h

theorem isSome_snoc_old {κ ν : Type} [DecidableEq κ] {x k : κ} (v : ν) {l : List (κ × ν)}
    (h : (dictFind? x l).isSome = true) : (dictFind? x (l ++ [(k, v)])).isSome = true := by
  rcases Option.isSome_iff_exists.mp h with ⟨p, hp⟩
  rw [find_snoc_old hp]
  rfl

theorem adj_subset_laneVerts {g : NavGraph} {i x : Nat} (h : x ∈ g.adjacency_list i) :
    x ∈ g.laneVerts := by
  unfold NavGraph.adjacency_list at h
  by_cases hi : i < g.vertices.length
  · rw [if_pos hi] at h
    unfold adjRow at h
    rcases List.mem_flatMap.mp h with ⟨l, hl, hx⟩
    rcases List.mem_append.mp hx with hx | hx
    · by_cases h1 : l.1 = i
      · rw [if_pos h1] at hx
        rcases List.mem_singleton.mp hx with rfl
        exact List.mem_flatMap.mpr ⟨l, hl, by simp⟩
      · rw [if_neg h1] at hx
        cases hx
    · by_cases h2 : l.2.1 = i
      · rw [if_pos h2] at hx
        rcases List.mem_singleton.mp hx with rfl
        exact List.mem_flatMap.mpr ⟨l, hl, by simp⟩
      · rw [if_neg h2] at hx
        cases hx
  · rw [if_neg hi] at h
    cases h

theorem filter_length_lt_of_flip {l : List Nat} (hnd : l.Nodup) {p q : Nat → Bool}
    {n : Nat} (hn : n ∈ l) (hpn : p n = true) (hqn : q n = false)
    (himp : ∀ x, q x = true → p x = true) :
    (l.filter q).length < (l.filter p).length := by
  induction l with
  | nil => cases hn
  | cons a l ih =>
    have hsub : (l.filter q).length ≤ (l.filter p).length :=
      (List.monotone_filter_right l (fun x hx => himp x hx)).length_le
    rcases List.mem_cons.mp hn with rfl | hn'
    · rw [List.filter_cons, List.filter_cons, hpn, hqn]
      simpa using Nat.lt_succ_of_le hsub
    · have hih := ih (List.nodup_cons.mp hnd).2 hn'
      rw [List.filter_cons, List.filter_cons]
      cases hqa : q a with
      | false =>
        rw [if_neg (by simp [hqa])]
        cases hpa : p a with
        | false =>
          rw [if_neg (by simp [hpa])]
          exact hih
        | true =>
          rw [if_pos (by simp [hpa])]
          simp only [List.length_cons]
          omega
      | true =>
        rw [if_pos (by simp [hqa]), if_pos (by simp [himp a hqa])]
        simp only [List.length_cons]
        omega

theorem unvis_snoc_lt {g : NavGraph} {n : Nat} {visited : List (Nat × Option Nat)}
    (hlane : n ∈ g.laneVerts) (hun : dictFind? n visited = none) (pn : Option Nat) :
    unvisCount g (visited ++ [(n, pn)]) < unvisCount g visited := by
  unfold unvisCount
  refine filter_length_lt_of_flip g.laneVerts.nodup_dedup
    (List.mem_dedup.mpr hlane) ?_ ?_ ?_
  · rw [hun]; rfl
  · rw [find_snoc_fresh pn hun]; rfl
  · intro x hx
    by_cases hxn : x = n
    · subst hxn
      rw [find_snoc_fresh pn hun] at hx
      cases hx
    · rwa [find_snoc_ne pn visited hxn] at hx

/-- Restating a two-level decomposition along a pointwise-equal level map. -/
theorem two_level_congr {lvl lvl' : Nat → Nat} {queue : List Nat}
    (h : ∃ d q₁ q₂, queue = q₁ ++ q₂ ∧ (∀ x ∈ q₁, lvl x = d) ∧ (∀ x ∈ q₂, lvl x = d + 1))
    (agree : ∀ x ∈ queue, lvl' x = lvl x) :
    ∃ d q₁ q₂, queue = q₁ ++ q₂ ∧ (∀ x ∈ q₁, lvl' x = d) ∧ (∀ x ∈ q₂, lvl' x = d + 1) := by
  rcases h with ⟨d, q₁, q₂, rfl, h1, h2⟩
  refine ⟨d, q₁, q₂, rfl, ?_, ?_⟩
  · intro x hx
    rw [agree x (List.mem_append.mpr (Or.inl hx))]
    exact h1 x hx
  · intro x hx
    rw [agree x (List.mem_append.mpr (Or.inr hx))]
    exact h2 x hx

theorem two_level_head_min {lvl : Nat → Nat} {current : Nat} {q : List Nat}
    (h : ∃ d q₁ q₂, current :: q = q₁ ++ q₂ ∧ (∀ x ∈ q₁, lvl x = d) ∧
      (∀ x ∈ q₂, lvl x = d + 1)) :
    ∀ x ∈ current :: q, lvl current ≤ lvl x := by
  rcases h with ⟨d, q₁, q₂, he, h1, h2⟩
  cases q₁ with
  | nil =>
    simp only [List.nil_append] at he
    subst he
    intro x hx
    rw [h2 x hx, h2 current (List.mem_cons_self _ _)]
  | cons a q₁ =>
    rw [List.cons_append] at he
    injection he with h1' h2'
    subst h1'
    have hc : lvl current = d := h1 current (List.mem_cons_self _ _)
    intro x hx
    rw [hc]
    rcases List.mem_cons.mp hx with rfl | hx'
    · omega
    · rw [h2'] at hx'
      rcases List.mem_append.mp hx' with hx1 | hx2
      · rw [h1 x (List.mem_cons_of_mem _ hx1)]
      · rw [h2 x hx2]; omega

theorem two_level_snoc {lvl : Nat → Nat} {current n : Nat} {q : List Nat}
    (h : ∃ d q₁ q₂, current :: q = q₁ ++ q₂ ∧ (∀ x ∈ q₁, lvl x = d) ∧
      (∀ x ∈ q₂, lvl x = d + 1))
    (hn : lvl n = lvl current + 1) :
    ∃ d q₁ q₂, current :: (q ++ [n]) = q₁ ++ q₂ ∧ (∀ x ∈ q₁, lvl x = d) ∧
      (∀ x ∈ q₂, lvl x = d + 1) := by
  rcases h with ⟨d, q₁, q₂, he, h1, h2⟩
  cases q₁ with
  | nil =>
    simp only [List.nil_append] at he
    subst he
    refine ⟨d + 1, current :: q, [n], by simp, h2, ?_⟩
    intro x hx
    rcases List.mem_singleton.mp hx with rfl
    rw [hn, h2 current (List.mem_cons_self _ _)]
  | cons a q₁ =>
    rw [List.cons_append] at he
    injection he with h1' h2'
    subst h1'
    subst h2'
    refine ⟨d, current :: q₁, q₂ ++ [n], by simp, h1, ?_⟩
    intro x hx
    rcases List.mem_append.mp hx with hx | hx
    · exact h2 x hx
    · rcases List.mem_singleton.mp hx with rfl
      rw [hn, h1 current (List.mem_cons_self _ _)]

theorem two_level_pop {lvl : Nat → Nat} {current : Nat} {q : List Nat}
    (h : ∃ d q₁ q₂, current :: q = q₁ ++ q₂ ∧ (∀ x ∈ q₁, lvl x = d) ∧
      (∀ x ∈ q₂, lvl x = d + 1)) :
    ∃ d q₁ q₂, q = q₁ ++ q₂ ∧ (∀ x ∈ q₁, lvl x = d) ∧ (∀ x ∈ q₂, lvl x = d + 1) := by
  rcases h with ⟨d, q₁, q₂, he, h1, h2⟩
  cases q₁ with
  | nil =>
    simp only [List.nil_append] at he
    subst he
    exact ⟨d + 1, q, [], by simp, fun x hx => h2 x (List.mem_cons_of_mem _ hx),
      by simp⟩
  | cons a q₁ =>
    rw [List.cons_append] at he
    injection he with h1' h2'
    exact ⟨d, q₁, q₂, h2', fun x hx => h1 x (List.mem_cons_of_mem _ hx), h2⟩

/-- The master frontier lemma: anything reachable in `k` steps is either
already visited or the queue holds a vertex of level strictly below `k`. -/
theorem bfs_ml {g : NavGraph} {occ : List Nat} {start : Nat} {lvl : Nat → Nat}
    {visited : List (Nat × Option Nat)} {queue : List Nat}
    (inv : BFSInv g occ start lvl visited queue) :
    ∀ u k, AReach g occ start u k →
      (dictFind? u visited).isSome = true ∨ ∃ x ∈ queue, lvl x < k := by
  intro u k h
  induction h with
  | refl => exact Or.inl (by rw [inv.start_mem]; rfl)
  | @step u' v n hu hadj hocc ih =>
    rcases ih with hvis | ⟨x, hxq, hxlt⟩
    · by_cases hq : u' ∈ queue
      · exact Or.inr ⟨u', hq, Nat.lt_succ_of_le (inv.least u' hvis n hu)⟩
      · by_cases hvu : v = u'
        · exact Or.inl (hvu ▸ hvis)
        · exact Or.inl (inv.closed u' hvis hq v hadj hocc hvu)
    · exact Or.inr ⟨x, hxq, Nat.lt_succ_of_lt hxlt⟩

/-- Parent-chain reconstruction is correct: from any visited vertex,
`backtrack` with enough fuel returns a valid path from `start` of length its
recorded level plus one, prefixed to the accumulator. -/
theorem backtrack_spec {g : NavGraph} {occ : List Nat} {start : Nat} {lvl : Nat → Nat}
    {visited : List (Nat × Option Nat)} {queue : List Nat}
    (inv : BFSInv g occ start lvl visited queue) :
    ∀ fuel v pv acc, dictFind? v visited = some pv → lvl v < fuel →
      ∃ w, backtrack visited fuel v acc = w ++ acc ∧ w ≠ [] ∧
        w.head? = some start ∧ w.getLast? = some v ∧ PathOK g occ w ∧
        w.length = lvl v + 1 := by
  intro fuel
  induction fuel with
  | zero =>
    intro v pv acc hv hlt
    omega
  | succ fuel ih =>
    intro v pv acc hv hlt
    rw [backtrack, hv]
    cases pv with
    | none =>
      have hvs : v = start := inv.none_start v none hv rfl
      subst hvs
      refine ⟨[v], rfl, by simp, rfl, rfl, by simp [PathOK], ?_⟩
      rw [inv.lvl_start]
      rfl
    | some p =>
      obtain ⟨hpvis, hlvl, hadj, hocc, hne⟩ := inv.parent v p hv
      rcases Option.isSome_iff_exists.mp hpvis with ⟨pp, hpp⟩
      have hplt : lvl p < fuel := by omega
      rcases ih p pp (v :: acc) hpp hplt with ⟨w, hw, hwne, hwh, hwl, hwok, hwlen⟩
      refine ⟨w ++ [v], ?_, by simp, ?_, ?_, ?_, ?_⟩
      · show backtrack visited fuel p (v :: acc) = w ++ [v] ++ acc
        rw [hw, List.append_assoc]
        rfl
      · rw [List.head?_append_of_ne_nil w hwne, hwh]
      · exact List.getLast?_concat w
      · refine hwok.append (by simp [PathOK]) ?_
        intro x hx y hy
        rw [hwl] at hx
        rcases Option.mem_some_iff.mp hx with rfl
        rcases Option.mem_some_iff.mp (by simpa using hy) with rfl
        exact ⟨hadj, hocc, hne⟩
      · rw [List.length_append, hwlen, List.length_singleton]
        omega

/-- Discovering a fresh valid neighbor `n` of the queue head `current`
preserves the BFS invariant, recording `n` at level `lvl current + 1`. -/
theorem bfs_insert_inv {g : NavGraph} {occ : List Nat} {start current n : Nat}
    {lvl : Nat → Nat} {visited : List (Nat × Option Nat)} {q : List Nat}
    (inv : BFSInv g occ start lvl visited (current :: q))
    (hadj : n ∈ g.adjacency_list current) (hnocc : n ∉ occ) (hncur : n ≠ current)
    (hfresh : dictFind? n visited = none) :
    BFSInv g occ start (fun x => if x = n then lvl current + 1 else lvl x)
      (visited ++ [(n, some current)]) (current :: (q ++ [n])) := by
  have hcur_vis : (dictFind? current visited).isSome = true :=
    inv.qmem current (List.mem_cons_self _ _)
  have hn_start : n ≠ start := by
    intro h
    rw [h, inv.start_mem] at hfresh
    cases hfresh
  have agree_vis : ∀ x, (dictFind? x visited).isSome = true →
      (if x = n then lvl current + 1 else lvl x) = lvl x := by
    intro x hx
    rw [if_neg]
    intro hc
    rw [hc, hfresh] at hx
    cases hx
  have hq_ne_n : ∀ x ∈ current :: q, x ≠ n := by
    intro x hx hc
    have := inv.qmem x hx
    rw [hc, hfresh] at this
    cases this
  have hmin : ∀ x ∈ current :: q, lvl current ≤ lvl x := two_level_head_min inv.two_level
  have hleast_n : ∀ k, AReach g occ start n k → lvl current + 1 ≤ k := by
    intro k hk
    rcases bfs_ml inv n k hk with hvis | ⟨x, hxq, hxlt⟩
    · rw [hfresh] at hvis
      cases hvis
    · have := hmin x hxq
      omega
  have hn_notkey : n ∉ visited.map Prod.fst := (dictFind?_eq_none_iff n visited).mp hfresh
  refine
    { nd := ?_, start_mem := ?_, lvl_start := ?_, none_start := ?_, parent := ?_,
      sound := ?_, least := ?_, closed := ?_, qmem := ?_, two_level := ?_, lvl_lt := ?_ }
  · rw [List.map_append]
    refine inv.nd.append (by simp) ?_
    intro x hx hxn
    rcases List.mem_singleton.mp (by simpa using hxn) with rfl
    exact hn_notkey hx
  · exact find_snoc_old inv.start_mem _
  · rw [if_neg (Ne.symm hn_start)]
    exact inv.lvl_start
  · intro v p hv hp
    by_cases hvn : v = n
    · subst hvn
      rw [find_snoc_fresh _ hfresh] at hv
      cases hv
      cases hp
    · rw [find_snoc_ne _ _ hvn] at hv
      exact inv.none_start v p hv hp
  · intro v p hv
    by_cases hvn : v = n
    · subst hvn
      rw [find_snoc_fresh _ hfresh] at hv
      cases hv
      refine ⟨isSome_snoc_old _ hcur_vis, ?_, hadj, hnocc, hncur⟩
      rw [if_pos rfl, agree_vis current hcur_vis]
    · rw [find_snoc_ne _ _ hvn] at hv
      obtain ⟨hp1, hp2, hp3, hp4, hp5⟩ := inv.parent v p hv
      refine ⟨isSome_snoc_old _ hp1, ?_, hp3, hp4, hp5⟩
      rw [if_neg hvn, agree_vis p hp1]
      exact hp2
  · intro v hv
    by_cases hvn : v = n
    · subst hvn
      rw [if_pos rfl]
      exact AReach.step (inv.sound current hcur_vis) hadj hnocc
    · rcases isSome_snoc hv with hc | hold
      · exact absurd hc hvn
      · rw [if_neg hvn]
        exact inv.sound v hold
  · intro v hv k hk
    by_cases hvn : v = n
    · subst hvn
      rw [if_pos rfl]
      exact hleast_n k hk
    · rcases isSome_snoc hv with hc | hold
      · exact absurd hc hvn
      · rw [if_neg hvn]
        exact inv.least v hold k hk
  · intro v hv hnq w hw hwo hwv
    have hvn : v ≠ n := by
      intro hc
      exact hnq (hc ▸ List.mem_cons_of_mem _ (List.mem_append.mpr (Or.inr
        (List.mem_singleton.mpr rfl))))
    rcases isSome_snoc hv with hc | hold
    · exact absurd hc hvn
    · have hnq' : v ∉ current :: q := by
        intro hc
        rcases List.mem_cons.mp hc with rfl | hc'
        · exact hnq (List.mem_cons_self _ _)
        · exact hnq (List.mem_cons_of_mem _ (List.mem_append.mpr (Or.inl hc')))
      exact isSome_snoc_old _ (inv.closed v hold hnq' w hw hwo hwv)
  · intro x hx
    rcases List.mem_cons.mp hx with rfl | hx'
    · exact isSome_snoc_old _ hcur_vis
    · rcases List.mem_append.mp hx' with hxq | hxn
      · exact isSome_snoc_old _ (inv.qmem x (List.mem_cons_of_mem _ hxq))
      · rcases List.mem_singleton.mp hxn with rfl
        rw [find_snoc_fresh _ hfresh]
        rfl
  · refine two_level_snoc (two_level_congr inv.two_level ?_) ?_
    · intro x hx
      rw [if_neg (hq_ne_n x hx)]
    · rw [if_pos rfl, if_neg (hq_ne_n current (List.mem_cons_self _ _))]
  · intro v hv
    rw [List.length_append, List.length_singleton]
    by_cases hvn : v = n
    · subst hvn
      rw [if_pos rfl]
      have := inv.lvl_lt current hcur_vis
      omega
    · rcases isSome_snoc hv with hc | hold
      · exact absurd hc hvn
      · rw [if_neg hvn]
        have := inv.lvl_lt v hold
        omega

/-- Full specification of the inner neighbor loop: either it returns no path
and the invariant is maintained (with every processed neighbor accounted for,
old bindings untouched, the target still undiscovered, and the termination
measure not increased), or it returns a reconstructed path that is a valid
shortest `occ`-avoiding path from `start` to `tgt`. -/
theorem processNeighbors_spec (g : NavGraph) (occ : List Nat) (start tgt current : Nat) :
    ∀ (ns : List Nat) (visited : List (Nat × Option Nat)) (q : List Nat) (lvl : Nat → Nat),
      (∀ n ∈ ns, n ∈ g.adjacency_list current) →
      BFSInv g occ start lvl visited (current :: q) →
      dictFind? tgt visited = none →
      (match processNeighbors occ tgt current ns visited q with
       | (visited', q', none) =>
          ∃ lvl', BFSInv g occ start lvl' visited' (current :: q') ∧
            (∀ w ∈ ns, w ∈ occ ∨ w = current ∨ (dictFind? w visited').isSome = true) ∧
            (∀ v p, dictFind? v visited = some p → dictFind? v visited' = some p) ∧
            dictFind? tgt visited' = none ∧
            2 * unvisCount g visited' + q'.length ≤ 2 * unvisCount g visited + q.length
       | (_, _, some path) =>
          ∃ dt, path.length = dt + 1 ∧ AReach g occ start tgt dt ∧
            (∀ k, AReach g occ start tgt k → dt ≤ k) ∧
            path.head? = some start ∧ path.getLast? = some tgt ∧ PathOK g occ path) := by
  intro ns
  induction ns with
  | nil =>
    intro visited q lvl hns inv htgt
    rw [processNeighbors]
    exact ⟨lvl, inv, by simp, fun v p h => h, htgt, Nat.le_refl _⟩
  | cons n ns ih =>
    intro visited q lvl hns inv htgt
    rw [processNeighbors]
    by_cases h1 : n ∈ occ ∨ n = current
    · rw [if_pos h1]
      have hrec := ih visited q lvl (fun x hx => hns x (List.mem_cons_of_mem _ hx)) inv htgt
      cases hres : processNeighbors occ tgt current ns visited q with
      | mk vs' rest' =>
        obtain ⟨q', res⟩ := rest'
        rw [hres] at hrec
        cases res with
        | none =>
          simp only at hrec ⊢
          obtain ⟨lvl', inv', hcov, hmono, htgt', hmeas⟩ := hrec
          refine ⟨lvl', inv', ?_, hmono, htgt', hmeas⟩
          intro w hw
          rcases List.mem_cons.mp hw with rfl | hw'
          · tauto
          · exact hcov w hw'
        | some path =>
          simpa using hrec
    · rw [if_neg h1]
      by_cases h2 : (dictFind? n visited).isSome = true
      · rw [if_pos h2]
        have hrec := ih visited q lvl (fun x hx => hns x (List.mem_cons_of_mem _ hx)) inv htgt
        cases hres : processNeighbors occ tgt current ns visited q with
        | mk vs' rest' =>
          obtain ⟨q', res⟩ := rest'
          rw [hres] at hrec
          cases res with
          | none =>
            simp only at hrec ⊢
            obtain ⟨lvl', inv', hcov, hmono, htgt', hmeas⟩ := hrec
            refine ⟨lvl', inv', ?_, hmono, htgt', hmeas⟩
            intro w hw
            rcases List.mem_cons.mp hw with rfl | hw'
            · right; right
              rcases Option.isSome_iff_exists.mp h2 with ⟨p, hp⟩
              rw [hmono w p hp]
              rfl
            · exact hcov w hw'
          | some path =>
            simpa using hrec
      · rw [if_neg h2]
        simp only
        have hnocc : n ∉ occ := fun hc => h1 (Or.inl hc)
        have hncur : n ≠ current := fun hc => h1 (Or.inr hc)
        have hfresh : dictFind? n visited = none :=
          Option.not_isSome_iff_eq_none.mp (by simpa using h2)
        have hadjn : n ∈ g.adjacency_list current := hns n (List.mem_cons_self _ _)
        have inv'' := bfs_insert_inv inv hadjn hnocc hncur hfresh
        by_cases h3 : n = tgt
        · rw [if_pos h3]
          subst h3
          have hfind'' : dictFind? n (visited ++ [(n, some current)]) = some (some current) :=
            find_snoc_fresh _ hfresh
          have hlt'' : (fun x => if x = n then lvl current + 1 else lvl x) n <
              (visited ++ [(n, some current)]).length := inv''.lvl_lt n (by rw [hfind'']; rfl)
          rcases backtrack_spec inv'' (visited ++ [(n, some current)]).length n
              (some current) [] hfind'' hlt'' with ⟨w, hw, hwne, hwh, hwl, hwok, hwlen⟩
          rw [List.append_nil] at hw
          refine ⟨lvl current + 1, ?_, ?_, ?_, ?_, ?_, ?_⟩
          · rw [hw, hwlen]
            simp
          · have := inv''.sound n (by rw [hfind'']; rfl)
            simpa using this
          · intro k hk
            have := inv''.least n (by rw [hfind'']; rfl) k hk
            simpa using this
          · rw [hw]; exact hwh
          · rw [hw]; exact hwl
          · rw [hw]; exact hwok
        · rw [if_neg h3]
          have htgt'' : dictFind? tgt (visited ++ [(n, some current)]) = none := by
            rw [find_snoc_ne _ _ (fun hc : tgt = n => h3 hc.symm)]
            exact htgt
          have hrec := ih (visited ++ [(n, some current)]) (q ++ [n])
            (fun x => if x = n then lvl current + 1 else lvl x)
            (fun x hx => hns x (List.mem_cons_of_mem _ hx)) inv'' htgt''
          cases hres : processNeighbors occ tgt current ns (visited ++ [(n, some current)])
              (q ++ [n]) with
          | mk vs' rest' =>
            obtain ⟨q', res⟩ := rest'
            rw [hres] at hrec
            cases res with
            | none =>
              simp only at hrec ⊢
              obtain ⟨lvl', inv', hcov, hmono, htgt', hmeas⟩ := hrec
              refine ⟨lvl', inv', ?_, ?_, htgt', ?_⟩
              · intro w hw
                rcases List.mem_cons.mp hw with rfl | hw'
                · right; right
                  rw [hmono w (some current) (find_snoc_fresh _ hfresh)]
                  rfl
                · exact hcov w hw'
              · intro v p hv
                exact hmono v p (find_snoc_old hv _)
              · have hless : unvisCount g (visited ++ [(n, some current)]) <
                    unvisCount g visited :=
                  unvis_snoc_lt (adj_subset_laneVerts hadjn) hfresh _
                rw [List.length_append, List.length_singleton] at hmeas
                omega
            | some path =>
              simpa using hrec

/-- The outer BFS loop, with enough fuel, returns a shortest valid path when
the target is reachable and `none` exactly when it is not. -/
theorem bfsLoop_spec (g : NavGraph) (occ : List Nat) (start tgt : Nat) :
    ∀ (fuel : Nat) (visited : List (Nat × Option Nat)) (queue : List Nat) (lvl : Nat → Nat),
      BFSInv g occ start lvl visited queue →
      dictFind? tgt visited = none →
      2 * unvisCount g visited + queue.length ≤ fuel →
      (match bfsLoop g occ tgt fuel visited queue with
       | none => ∀ k, ¬ AReach g occ start tgt k
       | some path => ∃ dt, path.length = dt + 1 ∧ AReach g occ start tgt dt ∧
           (∀ k, AReach g occ start tgt k → dt ≤ k) ∧ path.head? = some start ∧
           path.getLast? = some tgt ∧ PathOK g occ path) := by
  intro fuel
  induction fuel with
  | zero =>
    intro visited queue lvl inv htgt hfuel
    have hq : queue = [] := List.length_eq_zero.mp (by omega)
    subst hq
    show ∀ k, ¬ AReach g occ start tgt k
    intro k hk
    rcases bfs_ml inv tgt k hk with hvis | ⟨x, hx, _⟩
    · rw [htgt] at hvis
      cases hvis
    · cases hx
  | succ fuel ih =>
    intro visited queue lvl inv htgt hfuel
    cases queue with
    | nil =>
      show ∀ k, ¬ AReach g occ start tgt k
      intro k hk
      rcases bfs_ml inv tgt k hk with hvis | ⟨x, hx, _⟩
      · rw [htgt] at hvis
        cases hvis
      · cases hx
    | cons current rest =>
      rw [bfsLoop]
      have hspec := processNeighbors_spec g occ start tgt current (g.adjacency_list current)
        visited rest lvl (fun n h => h) inv htgt
      cases hres : processNeighbors occ tgt current (g.adjacency_list current) visited rest with
      | mk vs' rest' =>
        obtain ⟨q', res⟩ := rest'
        rw [hres] at hspec
        cases res with
        | some path => simpa using hspec
        | none =>
          simp only at hspec ⊢
          obtain ⟨lvl', inv', hcov, hmono, htgt', hmeas⟩ := hspec
          have hinv2 : BFSInv g occ start lvl' vs' q' :=
            { nd := inv'.nd, start_mem := inv'.start_mem, lvl_start := inv'.lvl_start,
              none_start := inv'.none_start, parent := inv'.parent, sound := inv'.sound,
              least := inv'.least,
              closed := by
                intro v hv hnq w hw hwo hwv
                by_cases hvc : v = current
                · subst hvc
                  rcases hcov w hw with h | h | h
                  · exact absurd h hwo
                  · exact absurd h hwv
                  · exact h
                · refine inv'.closed v hv ?_ w hw hwo hwv
                  intro hc
                  rcases List.mem_cons.mp hc with hcc | hcc
                  · exact hvc hcc
                  · exact hnq hcc,
              qmem := fun x hx => inv'.qmem x (List.mem_cons_of_mem _ hx),
              two_level := two_level_pop inv'.two_level,
              lvl_lt := inv'.lvl_lt }
          have hfuel' : 2 * unvisCount g vs' + q'.length ≤ fuel := by
            simp only [List.length_cons] at hfuel
            omega
          exact ih vs' q' lvl' hinv2 htgt' hfuel'

theorem bfs_init_inv (g : NavGraph) (occ : List Nat) (start : Nat) :
    BFSInv g occ start (fun _ => 0) [(start, none)] [start] := by
  have hsingle : ∀ v : Nat, (dictFind? v [(start, (none : Option Nat))]).isSome = true →
      v = start := by
    intro v hv
    unfold dictFind? at hv
    by_cases h : start = v
    · exact h.symm
    · rw [if_neg h] at hv
      cases hv
  refine
    { nd := by simp, start_mem := by simp [dictFind?], lvl_start := rfl,
      none_start := fun v p hv _ => hsingle v (by rw [hv]; rfl),
      parent := ?_, sound := ?_, least := fun v _ k _ => Nat.zero_le k,
      closed := ?_, qmem := ?_,
      two_level := ⟨0, [start], [], by simp, by simp, by simp⟩,
      lvl_lt := fun v _ => by simp }
  · intro v p hv
    have hvs : v = start := hsingle v (by rw [hv]; rfl)
    subst hvs
    rw [show dictFind? v [(v, (none : Option Nat))] = some none by simp [dictFind?]] at hv
    cases hv
  · intro v hv
    have hvs : v = start := hsingle v hv
    subst hvs
    exact AReach.refl
  · intro v hv hq
    have hvs : v = start := hsingle v hv
    subst hvs
    exact absurd (List.mem_singleton.mpr rfl) hq
  · intro x hx
    rcases List.mem_singleton.mp hx with rfl
    simp [dictFind?]

/-- C3. BFS optimality: on an unobstructed graph, for every pair of vertices
`a`, `b`, if `d` is the true unweighted graph distance from `a` to `b` (a
shortest-walk length over the adjacency structure), `find_shortest_path a b ∅`
returns a genuine path of exactly `d` edges (`d + 1` vertices) from `a` to
`b`; if `b` is unreachable from `a` it returns `none`. -/
theorem C3_bfs_optimality (g : NavGraph) (a b : Nat) :
    (∀ d, AReach g [] a b d → (∀ k, AReach g [] a b k → d ≤ k) →
      ∃ p, g.find_shortest_path a b [] = some p ∧ p.length = d + 1 ∧
        p.head? = some a ∧ p.getLast? = some b ∧ PathOK g [] p) ∧
    ((¬ ∃ k, AReach g [] a b k) → g.find_shortest_path a b [] = none) := by
  by_cases hab : a = b
  · subst hab
    constructor
    · intro d hd hmin
      have hd0 : d = 0 := Nat.le_antisymm (hmin 0 AReach.refl) (Nat.zero_le d)
      subst hd0
      exact ⟨[a], by rw [NavGraph.find_shortest_path, if_pos rfl], rfl, rfl, rfl,
        by simp [PathOK]⟩
    · intro hne
      exact absurd ⟨0, AReach.refl⟩ hne
  · have htgt0 : dictFind? b [(a, (none : Option Nat))] = none := by
      simp [dictFind?, hab]
    have h := bfsLoop_spec g [] a b (2 * unvisCount g [(a, none)] + 1) [(a, none)] [a]
      (fun _ => 0) (bfs_init_inv g [] a) htgt0 (by simp)
    have hfind : g.find_shortest_path a b [] =
        bfsLoop g [] b (2 * unvisCount g [(a, none)] + 1) [(a, none)] [a] := by
      rw [NavGraph.find_shortest_path, if_neg hab]
    cases hres : bfsLoop g [] b (2 * unvisCount g [(a, none)] + 1) [(a, none)] [a] with
    | none =>
      rw [hres] at h
      constructor
      · intro d hd _
        exact absurd hd (h d)
      · intro _
        rw [hfind, hres]
    | some path =>
      rw [hres] at h
      obtain ⟨dt, hlen, hreach, hleast, hhead, hlast, hok⟩ := h
      constructor
      · intro d hd hmin
        have hdd : dt = d := Nat.le_antisymm (hleast d hd) (hmin dt hreach)
        subst hdd
        exact ⟨path, by rw [hfind, hres], hlen, hhead, hlast, hok⟩
      · intro hne
        exact absurd ⟨dt, hreach⟩ hne

/-- Witness for C3 on the two-vertex line graph: distance 1 from 0 to 1, and
the returned path `[0, 1]` has exactly one edge. -/
theorem C3_bfs_optimality_witness :
    AReach gC9 [] 0 1 1 ∧ gC9.find_shortest_path 0 1 [] = some [0, 1] ∧
    (∃ p, gC9.find_shortest_path 0 1 [] = some p ∧ p.length = 1 + 1) := by
  have h1 : AReach gC9 [] 0 1 1 :=
    AReach.step AReach.refl (by decide) (by simp)
  have hmin : ∀ k, AReach gC9 [] 0 1 k → 1 ≤ k := by
    intro k hk
    cases hk with
    | step h hadj hocc => omega
  refine ⟨h1, rfl, ?_⟩
  rcases (C3_bfs_optimality gC9 0 1).1 1 h1 hmin with ⟨p, hp, hlen, _⟩
  exact ⟨p, hp, hlen⟩

end FleetSim
